import Mathlib

/- Verification development for the Kode-rs agent core.

   Shallow embedding of:
   - the SSE wire parser (src/services/streaming/sse_parser.rs),
   - the Anthropic and OpenAI stream handlers (src/services/streaming/),
   - the Bash, FileWrite and FileEdit tools (src/tools/).

   Rust `String`/`&str` values are modelled as lists of characters (`Str`);
   the file system and the per-context read-timestamp ledger are modelled as
   association lists; modification times are `Nat` milliseconds.  External
   libraries (serde_json) are modelled as parameters. -/

/-- Rust strings are modelled as lists of characters. -/
abbrev Str := List Char

/-- Coerce a Lean string literal into the character-list model. -/
def str (s : String) : Str := s.data

/- ===================== SSE wire parser (sse_parser.rs) ===================== -/

/-- Model of `SseEvent` (sse_parser.rs lines 8-21). -/
structure SseEventL where
  eventType : Option Str
  data : Str
  id : Option Str
  retry : Option Nat
deriving DecidableEq, Repr

/-- Model of `SseEvent::new` (sse_parser.rs lines 24-32). -/
def SseEventL.new : SseEventL :=
  { eventType := none, data := [], id := none, retry := none }

/-- Model of `SseEvent::is_complete` (sse_parser.rs lines 34-37). -/
def SseEventL.isComplete (e : SseEventL) : Bool :=
  !e.data.isEmpty

/-- Model of `SseEvent::is_done_marker` (sse_parser.rs lines 39-42). -/
def SseEventL.isDoneMarker (e : SseEventL) : Bool :=
  e.data == str "[DONE]"

/-- Digit-string evaluation used by the model of `str::parse::<u64>`:
some value if the string is non-empty and all-digits, none otherwise. -/
def digitsVal (s : Str) : Option Nat :=
  if s.isEmpty then none
  else if s.all Char.isDigit then
    some (s.foldl (fun a c => a * 10 + (c.toNat - 48)) 0)
  else none

/-- Model of Rust `value.parse::<u64>()` for the `retry:` field: an optional
leading plus sign followed by decimal digits (overflow is not modelled; the
claims under consideration do not involve values near 2^64). -/
def parseU64 (s : Str) : Option Nat :=
  match s with
  | '+' :: rest => digitsVal rest
  | _ => digitsVal s

/-- Model of `SseParser::parse_field` (sse_parser.rs lines 142-155): split the
line at the first colon, dropping one optional space after the colon; a line
with no colon is a bare field name with empty value. -/
def parseFieldL (line : Str) : Option (Str × Str) :=
  if line.contains ':' then
    let field := line.takeWhile (fun c => c ≠ ':')
    let rest := (line.dropWhile (fun c => c ≠ ':')).tail
    let value := if rest.head? = some ' ' then rest.tail else rest
    some (field, value)
  else
    some (line, [])

/-- Model of `SseParser::process_line` (sse_parser.rs lines 96-139), acting on
the current in-progress event; returns the new in-progress event and the
completed event, if the line finished one. -/
def processLine (ev : SseEventL) (line : Str) : SseEventL × Option SseEventL :=
  if line.isEmpty then
    if ev.isComplete then (SseEventL.new, some ev) else (ev, none)
  else if line.head? = some ':' then
    (ev, none)
  else
    match parseFieldL line with
    | some (field, value) =>
      if field = str "event" then
        ({ ev with eventType := some value }, none)
      else if field = str "data" then
        ({ ev with data := if ev.data.isEmpty then value else ev.data ++ '\n' :: value }, none)
      else if field = str "id" then
        ({ ev with id := some value }, none)
      else if field = str "retry" then
        (match parseU64 value with
         | some n => { ev with retry := some n }
         | none => ev, none)
      else
        (ev, none)
    | none => (ev, none)

/-- Model of the parser state of `SseParser` (sse_parser.rs lines 55-61). -/
structure SseParserS where
  currentEvent : SseEventL
  lineBuffer : Str
deriving DecidableEq, Repr

/-- Model of `SseParser::new` (sse_parser.rs lines 65-70). -/
def SseParserS.new : SseParserS :=
  { currentEvent := SseEventL.new, lineBuffer := [] }

/-- Decompose a buffer into the complete (newline-terminated) lines, in order,
and the trailing remainder with no newline; this captures the
`while let Some(line_end) = self.line_buffer.find('\n')` loop of `parse_chunk`
(sse_parser.rs lines 82-90). -/
def splitCompleteLines : Str → List Str × Str
  | [] => ([], [])
  | c :: cs =>
    if c = '\n' then
      ([] :: (splitCompleteLines cs).1, (splitCompleteLines cs).2)
    else
      match splitCompleteLines cs with
      | ([], rest) => ([], c :: rest)
      | (l :: ls, rest) => ((c :: l) :: ls, rest)

/-- Model of `.trim_end_matches('\r')` applied to each extracted line
(sse_parser.rs line 83): drop every trailing carriage return. -/
def trimTrailingCr (l : Str) : Str :=
  (l.reverse.dropWhile (fun c => c = '\r')).reverse

/-- Run `processLine` over a list of complete lines, collecting the completed
events in order. -/
def processLines (ev : SseEventL) : List Str → SseEventL × List SseEventL
  | [] => (ev, [])
  | l :: ls =>
    let r := processLine ev l
    let rest := processLines r.1 ls
    (rest.1, (match r.2 with | some e => [e] | none => []) ++ rest.2)

/-- Model of `SseParser::parse_chunk` (sse_parser.rs lines 75-93): append the
chunk to the line buffer, consume every complete line, and keep the trailing
partial line buffered. -/
def parseChunk (st : SseParserS) (chunk : Str) : SseParserS × List SseEventL :=
  let buf := st.lineBuffer ++ chunk
  let p := splitCompleteLines buf
  let r := processLines st.currentEvent (p.1.map trimTrailingCr)
  ({ currentEvent := r.1, lineBuffer := p.2 }, r.2)

/-- Feed a list of chunks to `parseChunk` one at a time, concatenating the
returned event lists in order. -/
def parseMany (st : SseParserS) : List Str → SseParserS × List SseEventL
  | [] => (st, [])
  | c :: cs =>
    let r := parseChunk st c
    let rest := parseMany r.1 cs
    (rest.1, r.2 ++ rest.2)

/- ---- lemmas about the line splitter ---- -/

theorem splitCompleteLines_no_nl (s : Str) (h : '\n' ∉ s) :
    splitCompleteLines s = ([], s) := by
  induction s with
  | nil => rfl
  | cons c cs ih =>
    have hc : ¬ c = '\n' := fun hc => h (hc ▸ List.mem_cons_self c cs)
    have hcs : '\n' ∉ cs := fun hm => h (List.mem_cons_of_mem c hm)
    simp [splitCompleteLines, hc, ih hcs]

theorem splitCompleteLines_snd_no_nl (s : Str) : '\n' ∉ (splitCompleteLines s).2 := by
  induction s with
  | nil => simp [splitCompleteLines]
  | cons c cs ih =>
    cases h1 : splitCompleteLines cs with
    | mk ls rest =>
      rw [h1] at ih
      by_cases hc : c = '\n'
      · simp [splitCompleteLines, hc, h1, ih]
      · cases ls with
        | nil =>
          simp only [splitCompleteLines, if_neg hc, h1]
          intro hm
          rcases List.mem_cons.mp hm with h | h
          · exact hc h.symm
          · exact ih (by simpa using h)
        | cons l ls' =>
          simp only [splitCompleteLines, if_neg hc, h1]
          simpa using ih

theorem splitCompleteLines_append (x y : Str) :
    splitCompleteLines (x ++ y) =
      ((splitCompleteLines x).1 ++
         (splitCompleteLines ((splitCompleteLines x).2 ++ y)).1,
       (splitCompleteLines ((splitCompleteLines x).2 ++ y)).2) := by
  induction x with
  | nil => simp [splitCompleteLines]
  | cons c cs ih =>
    by_cases hc : c = '\n'
    · subst hc
      simp [splitCompleteLines, ih]
    · cases h1 : splitCompleteLines cs with
      | mk ls rest =>
        cases ls with
        | nil =>
          cases h2 : splitCompleteLines (rest ++ y) with
          | mk ls2 rest2 =>
            cases ls2 with
            | nil =>
              simp [splitCompleteLines, hc, h1, h2, ih, List.append_eq]
            | cons l2 ls2' =>
              simp [splitCompleteLines, hc, h1, h2, ih, List.append_eq]
        | cons l ls' =>
          cases h2 : splitCompleteLines (rest ++ y) with
          | mk ls2 rest2 =>
            simp [splitCompleteLines, hc, h1, h2, ih, List.append_eq]

theorem processLines_append (ev : SseEventL) (l1 l2 : List Str) :
    processLines ev (l1 ++ l2) =
      ((processLines (processLines ev l1).1 l2).1,
       (processLines ev l1).2 ++ (processLines (processLines ev l1).1 l2).2) := by
  induction l1 generalizing ev with
  | nil => simp [processLines]
  | cons l ls ih =>
    simp [processLines, ih (processLine ev l).1, List.append_assoc]

theorem parseChunk_split (st : SseParserS) (a b : Str) :
    parseChunk st (a ++ b) =
      ((parseChunk (parseChunk st a).1 b).1,
       (parseChunk st a).2 ++ (parseChunk (parseChunk st a).1 b).2) := by
  simp only [parseChunk]
  rw [← List.append_assoc, splitCompleteLines_append (st.lineBuffer ++ a) b]
  simp only [List.map_append]
  rw [processLines_append]

theorem parseChunk_nil (st : SseParserS) (h : '\n' ∉ st.lineBuffer) :
    parseChunk st [] = (st, []) := by
  simp [parseChunk, splitCompleteLines_no_nl st.lineBuffer h, processLines]

theorem parseChunk_buffer_no_nl (st : SseParserS) (c : Str) :
    '\n' ∉ (parseChunk st c).1.lineBuffer := by
  simp only [parseChunk]
  exact splitCompleteLines_snd_no_nl (st.lineBuffer ++ c)

theorem parseMany_join (chunks : List Str) (st : SseParserS)
    (h : '\n' ∉ st.lineBuffer) :
    parseMany st chunks = parseChunk st chunks.flatten := by
  induction chunks generalizing st with
  | nil => simp [parseMany, parseChunk_nil st h]
  | cons c cs ih =>
    simp only [parseMany, List.flatten_cons]
    rw [parseChunk_split st c cs.flatten, ih (parseChunk st c).1 (parseChunk_buffer_no_nl st c)]

/-- Claim C3: for every SSE byte stream and every way of splitting it into
chunks, feeding the chunks one at a time to `parse_chunk` and concatenating
the returned event lists in order yields exactly the same ordered sequence of
`SseEvent` values as parsing the whole stream in a single call. -/
theorem c3_sse_chunk_invariance (chunks : List Str) :
    (parseMany SseParserS.new chunks).2 =
      (parseChunk SseParserS.new chunks.flatten).2 := by
  rw [parseMany_join chunks SseParserS.new (by simp [SseParserS.new])]

/- ===================== Message data model (messages.rs) ===================== -/

/-- Model of `serde_json::Value`: the JSON values carried in `ToolUse.input`
and validation metadata. -/
inductive Json where
  | null
  | jbool (b : Bool)
  | jnum (n : Int)
  | jstr (s : Str)
  | arr (elems : List Json)
  | obj (fields : List (Str × Json))

/-- The empty JSON object `serde_json::Value::Object(serde_json::Map::new())`. -/
def Json.emptyObj : Json := Json.obj []

/-- Model of `Role` (messages.rs lines 12-16). -/
inductive RoleL where
  | user
  | assistant
  | system
deriving DecidableEq, Repr

/-- Model of `ContentBlock` (messages.rs lines 21-39). -/
inductive ContentBlockL where
  | text (text : Str)
  | toolUse (id : Str) (name : Str) (input : Json)
  | toolResult (toolUseId : Str) (content : Str) (isError : Option Bool)
  | thinking (thinking : Str)

/-- Model of `Message` (messages.rs lines 44-48); `Uuid` values are modelled
as natural numbers. -/
structure MessageL where
  role : RoleL
  content : List ContentBlockL
  uuid : Option Nat

/-- Model of `AssistantMessage` (messages.rs lines 154-163); the constant
`cost_usd: 0.0` float is modelled as the constant 0. -/
structure AssistantMessageL where
  message : MessageL
  uuid : Nat
  costUsd : Nat
  durationMs : Nat
  isApiErrorMessage : Option Bool
  responseId : Option Str

/-- Model of `Usage` (services/mod.rs lines 119-128). -/
structure UsageL where
  inputTokens : Nat
  outputTokens : Nat
  cacheCreationInputTokens : Option Nat
  cacheReadInputTokens : Option Nat
deriving DecidableEq, Repr

/- ===================== Tool plumbing (tools/mod.rs) ===================== -/

/-- Model of `ValidationResult` (tools/mod.rs lines 50-65). -/
structure ValidationResultL where
  result : Bool
  message : Option Str
  errorCode : Option Int
  meta : Option Json

/-- Model of `ValidationResult::ok` (tools/mod.rs lines 70-77). -/
def ValidationResultL.ok : ValidationResultL :=
  { result := true, message := none, errorCode := none, meta := none }

/-- Model of `ValidationResult::error` (tools/mod.rs lines 81-88). -/
def ValidationResultL.error (m : Str) : ValidationResultL :=
  { result := false, message := some m, errorCode := none, meta := none }

/-- Model of `ToolStreamItem` (tools/mod.rs lines 105-119). -/
inductive ToolStreamItemL (T : Type) where
  | progress (content : Str) (normalizedMessages : Option (List MessageL))
  | result (data : T) (resultForAssistant : Option Str)

/-- Model of `ToolContext` (tools/mod.rs lines 19-34); the read-timestamp
ledger `HashMap<String, u64>` is an association list from path to
milliseconds-since-epoch. -/
structure ToolContextL where
  messageId : Option Str
  agentId : Option Str
  safeMode : Bool
  readFileTimestamps : List (Str × Nat)
  verbose : Bool

/-- Association-list lookup, the model of `HashMap::get`. -/
def alGet {κ α : Type} [DecidableEq κ] (m : List (κ × α)) (k : κ) : Option α :=
  match m with
  | [] => none
  | (k1, v1) :: rest => if k1 = k then some v1 else alGet rest k

/-- Association-list insert-or-replace, the model of `HashMap::insert`. -/
def alInsert {κ α : Type} [DecidableEq κ] (m : List (κ × α)) (k : κ) (v : α) : List (κ × α) :=
  match m with
  | [] => [(k, v)]
  | (k1, v1) :: rest => if k1 = k then (k, v) :: rest else (k1, v1) :: alInsert rest k v

/-- Association-list removal returning the remaining map, the model of
`HashMap::remove` (the removed value is read with `alGet` first). -/
def alRemove {κ α : Type} [DecidableEq κ] (m : List (κ × α)) (k : κ) : List (κ × α) :=
  match m with
  | [] => []
  | (k1, v1) :: rest => if k1 = k then rest else (k1, v1) :: alRemove rest k

/- ===================== BashTool (tools/bash.rs) ===================== -/

/-- Model of `MAX_OUTPUT_LENGTH` (bash.rs line 17). -/
def MAX_OUTPUT_LENGTH : Nat := 30000

/-- Model of `DEFAULT_TIMEOUT_MS` (bash.rs line 18). -/
def DEFAULT_TIMEOUT_MS : Nat := 120000

/-- Model of `MAX_TIMEOUT_MS` (bash.rs line 19). -/
def MAX_TIMEOUT_MS : Nat := 600000

/-- Model of `BANNED_COMMANDS` (bash.rs lines 22-25). -/
def BANNED_COMMANDS : List Str :=
  [str "alias", str "curl", str "curlie", str "wget", str "axel", str "aria2c",
   str "nc", str "telnet", str "lynx", str "w3m", str "links",
   str "httpie", str "xh", str "http-prompt", str "chrome", str "firefox", str "safari"]

/-- Model of `BashInput` (bash.rs lines 28-34). -/
structure BashInput where
  command : Str
  timeout : Option Nat
deriving DecidableEq, Repr

/-- Model of `BashOutput` (bash.rs lines 37-44). -/
structure BashOutput where
  stdout : Str
  stdoutLines : Nat
  stderr : Str
  stderrLines : Nat
  exitCode : Int
  interrupted : Bool
deriving DecidableEq, Repr

/-- Decimal rendering of a natural number, the model of `format!` with a
numeric argument. -/
def natToStr (n : Nat) : Str := (Nat.repr n).data

/-- Model of Rust `str::trim`: drop leading and trailing whitespace. -/
def trimStr (s : Str) : Str :=
  ((s.dropWhile Char.isWhitespace).reverse.dropWhile Char.isWhitespace).reverse

/-- Accumulator version of `split_whitespace` (current word is built in
reverse in `acc`). -/
def splitWsAux : Str → Str → List Str
  | [], acc => if acc.isEmpty then [] else [acc.reverse]
  | c :: cs, acc =>
    if c.isWhitespace then
      if acc.isEmpty then splitWsAux cs [] else acc.reverse :: splitWsAux cs []
    else
      splitWsAux cs (c :: acc)

/-- Model of Rust `str::split_whitespace`: the maximal non-whitespace words,
in order. -/
def splitWhitespace (s : Str) : List Str := splitWsAux s []

/-- The shell operator characters `['|', '&', ';', '\n']` used by
`extract_base_command` (bash.rs line 120). -/
def isCmdSep (c : Char) : Bool :=
  c = '|' || c = '&' || c = ';' || c = '\n'

/-- Model of `BashTool::extract_base_command` (bash.rs lines 112-127): trim
the command, take the segment before the first shell operator, and return its
first whitespace-separated word. -/
def extractBaseCommand (command : Str) : Option Str :=
  let trimmed := trimStr command
  if trimmed.isEmpty then none
  else
    let seg := trimmed.takeWhile (fun c => !isCmdSep c)
    (splitWhitespace (trimStr seg)).head?

/-- Model of Rust `str::to_lowercase` restricted to its ASCII behavior
(the banned-command names and their capitalization variants are ASCII). -/
def toLowerStr (s : Str) : Str := s.map Char.toLower

/-- The `timeout > MAX_TIMEOUT_MS` test of `validate_input`
(bash.rs lines 191-198) on the optional timeout. -/
def bashTimeoutExceeds : Option Nat → Bool
  | some t => t > MAX_TIMEOUT_MS
  | none => false

/-- Model of `BashTool::validate_input` (bash.rs lines 185-212). -/
def bashValidateInput (input : BashInput) : ValidationResultL :=
  if bashTimeoutExceeds input.timeout then
    ValidationResultL.error
      (str "Timeout cannot exceed " ++ natToStr MAX_TIMEOUT_MS ++ str " milliseconds")
  else
    match extractBaseCommand input.command with
    | some baseCmd =>
      if toLowerStr baseCmd ∈ BANNED_COMMANDS then
        ValidationResultL.error
          (str "Command '" ++ baseCmd ++ str "' is not allowed for security reasons")
      else
        ValidationResultL.ok
    | none => ValidationResultL.ok

/-- Model of Rust `str::lines`: the lines of a string, where a final newline
terminates the last line and a single `'\r'` before each `'\n'` is stripped. -/
def splitOnNl : Str → List Str
  | [] => [[]]
  | c :: cs =>
    if c = '\n' then [] :: splitOnNl cs
    else
      match splitOnNl cs with
      | [] => [[c]]
      | l :: ls => (c :: l) :: ls

/-- Strip one trailing carriage return, as `str::lines` does per line. -/
def stripOneCr (l : Str) : Str :=
  if l.getLast? = some '\r' then l.dropLast else l

/-- Model of Rust `str::lines().collect()`. -/
def linesOf (s : Str) : List Str :=
  if s.isEmpty then []
  else
    let parts := splitOnNl s
    let parts := if s.getLast? = some '\n' then parts.dropLast else parts
    parts.map stripOneCr

/-- Model of `BashTool::format_output` (bash.rs lines 94-109): truncate output
beyond `MAX_OUTPUT_LENGTH` with an explicit truncation marker; also returns
the total line count of the untruncated output. -/
def formatOutput (output : Str) : Str × Nat :=
  let totalLines := (linesOf output).length
  if output.length > MAX_OUTPUT_LENGTH then
    (output.take MAX_OUTPUT_LENGTH ++ str "...\n\n<output truncated - showed first "
       ++ natToStr MAX_OUTPUT_LENGTH ++ str " of " ++ natToStr output.length ++ str " chars>",
     totalLines)
  else
    (output, totalLines)

/-- Outcome of `tokio::time::timeout(timeout, child.wait())`
(bash.rs line 295): the process exited with an optional code, waiting failed,
or the timeout elapsed first. -/
inductive WaitStatus where
  | exited (code : Option Int)
  | waitErr
  | timedOut
deriving DecidableEq, Repr

/-- Model of Rust `str::join("\n")` on collected lines. -/
def joinNl (ls : List Str) : Str := List.intercalate (str "\n") ls

/-- Model of the `result_for_assistant` rendering of `BashTool::call`
(bash.rs lines 322-338). -/
def bashResultForAssistant (stdoutFormatted stderrFormatted : Str) (interrupted : Bool) : Str :=
  let r1 : Str := if (trimStr stdoutFormatted).isEmpty then [] else trimStr stdoutFormatted
  let r2 : Str :=
    if (trimStr stderrFormatted).isEmpty then r1
    else if r1.isEmpty then trimStr stderrFormatted
    else r1 ++ '\n' :: trimStr stderrFormatted
  if interrupted then
    (if r2.isEmpty then str "<error>Command was aborted before completion</error>"
     else r2 ++ '\n' :: str "<error>Command was aborted before completion</error>")
  else r2

/-- Model of `BashTool::call` (bash.rs lines 245-352) after the subprocess
interaction is abstracted: `spawnOk` is whether `.spawn()` succeeded,
`stdoutLinesV`/`stderrLinesV` are the lines read from the two pipes, and
`status` is the outcome of the timed wait.  Returns the stream items together
with whether `child.kill()` was invoked. -/
def bashToolCall (_input : BashInput) (spawnOk : Bool)
    (stdoutLinesV stderrLinesV : List Str) (status : WaitStatus) :
    Except Str (List (ToolStreamItemL BashOutput) × Bool) :=
  if !spawnOk then
    Except.error (str "Failed to spawn command")
  else
    let exitCode : Int :=
      match status with
      | .exited code => code.getD (-1)
      | .waitErr => -1
      | .timedOut => -1
    let interrupted : Bool :=
      match status with
      | .timedOut => true
      | _ => false
    let killed : Bool :=
      match status with
      | .timedOut => true
      | _ => false
    let stdoutFull := joinNl stdoutLinesV
    let stderrFull := joinNl stderrLinesV
    let so := formatOutput stdoutFull
    let se := formatOutput stderrFull
    let output : BashOutput :=
      { stdout := so.1, stdoutLines := so.2, stderr := se.1, stderrLines := se.2,
        exitCode := exitCode, interrupted := interrupted }
    let rfa := bashResultForAssistant so.1 se.1 interrupted
    Except.ok
      ([ToolStreamItemL.result output (if rfa.isEmpty then none else some rfa)], killed)

/- ---- Claims C8, C9, C10 ---- -/

/-- Characterization of the timeout test. -/
theorem bashTimeoutExceeds_iff (o : Option Nat) :
    bashTimeoutExceeds o = true ↔ ∃ t, o = some t ∧ MAX_TIMEOUT_MS < t := by
  cases o <;> simp [bashTimeoutExceeds]

/-- Claim C8 counterexample: the input `CURL https://example.com` (leading
token `CURL`, no timeout) is rejected by `validate_input` although its leading
token is not on the fixed banned-command list and no timeout is requested, so
"every other command passes validation" fails as stated. -/
theorem c8_counterexample :
    (bashValidateInput { command := str "CURL https://example.com", timeout := none }).result = false
      ∧ extractBaseCommand (str "CURL https://example.com") = some (str "CURL")
      ∧ str "CURL" ∉ BANNED_COMMANDS := by
  refine ⟨by decide, by decide, by decide⟩

/-- Helper: exact characterization of rejection by `BashTool::validate_input`. -/
theorem bashValidate_reject_iff (input : BashInput) :
    (bashValidateInput input).result = false ↔
      ((∃ t, input.timeout = some t ∧ MAX_TIMEOUT_MS < t) ∨
       (∃ b, extractBaseCommand input.command = some b ∧ toLowerStr b ∈ BANNED_COMMANDS)) := by
  unfold bashValidateInput
  by_cases ht : bashTimeoutExceeds input.timeout = true
  · simp only [ht, if_true, ValidationResultL.error]
    simp [((bashTimeoutExceeds_iff input.timeout).mp ht)]
  · have ht' : bashTimeoutExceeds input.timeout = false := by
      revert ht; cases bashTimeoutExceeds input.timeout <;> simp
    rw [ht']
    simp only [Bool.false_eq_true, if_false]
    cases hex : extractBaseCommand input.command with
    | none =>
      constructor
      · intro h; exact Bool.noConfusion h
      · rintro (⟨t, hteq, hgt⟩ | ⟨b, hb, _⟩)
        · exact absurd ((bashTimeoutExceeds_iff input.timeout).mpr ⟨t, hteq, hgt⟩)
            (by rw [ht']; simp)
        · exact Option.noConfusion hb
    | some b =>
      show (if toLowerStr b ∈ BANNED_COMMANDS then
              ValidationResultL.error
                (str "Command '" ++ b ++ str "' is not allowed for security reasons")
            else ValidationResultL.ok).result = false ↔ _
      by_cases hbn : toLowerStr b ∈ BANNED_COMMANDS
      · rw [if_pos hbn]
        constructor
        · intro _; exact Or.inr ⟨b, rfl, hbn⟩
        · intro _; rfl
      · rw [if_neg hbn]
        constructor
        · intro h; exact Bool.noConfusion h
        · rintro (⟨t, hteq, hgt⟩ | ⟨b2, hb2, hmem⟩)
          · exact absurd ((bashTimeoutExceeds_iff input.timeout).mpr ⟨t, hteq, hgt⟩)
              (by rw [ht']; simp)
          · injection hb2 with hbb
            subst hbb
            exact absurd hmem hbn

/-- Claim C8 (amended): `BashTool::validate_input` rejects an input exactly
when the requested timeout exceeds the 600000 ms ceiling or the lowercased
leading token of the command — the first whitespace-separated word before any
pipe, ampersand, semicolon or newline — is on the fixed banned-command list;
every other command passes validation. -/
theorem c8_bash_validate_reject_iff (input : BashInput) :
    (bashValidateInput input).result = false ↔
      ((∃ t, input.timeout = some t ∧ MAX_TIMEOUT_MS < t) ∨
       (∃ b, extractBaseCommand input.command = some b ∧ toLowerStr b ∈ BANNED_COMMANDS)) :=
  bashValidate_reject_iff input

/-- Claim C9: when a BashTool command exceeds its timeout, the subprocess is
killed and `call` still yields a single normal `Result` item whose output has
`interrupted` set to true (and exit code -1); a timeout never surfaces as an
error from `call`. -/
theorem c9_bash_timeout_interrupted (input : BashInput) (outs errs : List Str) :
    ∃ output rfa,
      bashToolCall input true outs errs WaitStatus.timedOut =
        Except.ok ([ToolStreamItemL.result output rfa], true)
      ∧ output.interrupted = true ∧ output.exitCode = -1 :=
  ⟨_, _, rfl, rfl, rfl⟩

/-- Claim C10: the deny-list check is case-insensitive — the leading token is
lowercased before comparison, so any command whose extracted leading token
lowercases to a banned name is rejected at validation. -/
theorem c10_denylist_case_insensitive (cmd : Str) (tmo : Option Nat) (b : Str)
    (hb : extractBaseCommand cmd = some b)
    (hlower : toLowerStr b ∈ BANNED_COMMANDS) :
    (bashValidateInput { command := cmd, timeout := tmo }).result = false := by
  rw [bashValidate_reject_iff]
  exact Or.inr ⟨b, hb, hlower⟩

/-- Witness for claim C10 at the concrete command `CURL https://example.com`. -/
theorem c10_denylist_case_insensitive_witness :
    (bashValidateInput { command := str "CURL https://example.com", timeout := none }).result = false :=
  c10_denylist_case_insensitive (str "CURL https://example.com") none (str "CURL")
    (by decide) (by decide)

/- ===================== File system model ===================== -/

/-- On-disk state of one file: its textual content and its modification time
in milliseconds since the epoch (`fs::metadata(..).modified()` as
`duration_since(UNIX_EPOCH).as_millis()`). -/
structure FileData where
  content : Str
  mtime : Nat
deriving DecidableEq, Repr

/-- The file system is an association list from absolute path to file data;
a missing entry is a path that does not exist. -/
def Fs : Type := List (Str × FileData)

/-- Model of `Path::is_absolute` on Unix: the path starts with a slash. -/
def isAbsolute (p : Str) : Bool := p.head? = some '/'

/-- Model of `Path::exists`. -/
def fsExists (fs : Fs) (p : Str) : Bool := (alGet fs p).isSome

/-- Scan of `str::contains` for a non-empty pattern: does the pattern occur as
a prefix at some position? -/
def containsAux : Str → Str → Bool
  | [], _ => false
  | c :: cs, pat => pat.isPrefixOf (c :: cs) || containsAux cs pat

/-- Model of Rust `str::contains` (the empty pattern always matches). -/
def containsSeq (s pat : Str) : Bool :=
  if pat.isEmpty then true else containsAux s pat

/-- Model of `str::replacen(pat, rep, 1)` for a non-empty pattern: replace the
leftmost occurrence. -/
def replFirstAux : Str → Str → Str → Str
  | [], _, _ => []
  | c :: cs, pat, rep =>
    if pat.isPrefixOf (c :: cs) then rep ++ List.drop pat.length (c :: cs)
    else c :: replFirstAux cs pat rep

/-- Model of Rust `str::replacen(pat, rep, 1)` (an empty pattern matches once
at the start of the string). -/
def replaceFirst (s pat rep : Str) : Str :=
  if pat.isEmpty then rep ++ s else replFirstAux s pat rep

/-- Count of `str::matches(pat).count()` for a non-empty pattern:
non-overlapping matches scanned from the left.  The `fuel` argument makes the
recursion structural (a non-overlapping scan skips `pat.length` characters at
a match); any `fuel ≥ s.length` computes the scan to completion. -/
def countAuxF (fuel : Nat) (s pat : Str) : Nat :=
  match fuel, s with
  | 0, _ => 0
  | _ + 1, [] => 0
  | f + 1, c :: cs =>
    if pat.isPrefixOf (c :: cs) then 1 + countAuxF f (List.drop (pat.length - 1) cs) pat
    else countAuxF f cs pat

/-- Model of Rust `str::matches(pat).count()` (the empty pattern matches at
every character boundary). -/
def countOccur (s pat : Str) : Nat :=
  if pat.isEmpty then s.length + 1 else countAuxF s.length s pat

/-- Scan of `str::replace` (replace all) for a non-empty pattern, with the
same structural `fuel` device as `countAuxF`; when the fuel runs out the
remainder is copied unchanged, which never happens for `fuel ≥ s.length`. -/
def replaceAllAuxF (fuel : Nat) (s pat rep : Str) : Str :=
  match fuel, s with
  | 0, s => s
  | _ + 1, [] => []
  | f + 1, c :: cs =>
    if pat.isPrefixOf (c :: cs) then rep ++ replaceAllAuxF f (List.drop (pat.length - 1) cs) pat rep
    else c :: replaceAllAuxF f cs pat rep

/-- Model of Rust `str::replace` (an empty pattern matches at every character
boundary). -/
def replaceAll (s pat rep : Str) : Str :=
  if pat.isEmpty then rep ++ s.foldr (fun c acc => c :: (rep ++ acc)) []
  else replaceAllAuxF s.length s pat rep

/-- Model of `detect_line_ending` (file_write.rs lines 66-72 and
file_edit.rs lines 188-194). -/
def detectLineEnding (content : Str) : Str :=
  if containsSeq content (str "\r\n") then str "\r\n" else str "\n"

/-- Line-ending normalization performed before writing (file_write.rs lines
262-267, file_edit.rs lines 413-418). -/
def normalizeLineEndings (lineEnding content : Str) : Str :=
  if lineEnding = str "\r\n" then replaceAll content (str "\n") (str "\r\n")
  else replaceAll content (str "\r\n") (str "\n")

/-- The last path component, for the model of `Path::extension`. -/
def fileNameOf (p : Str) : Str :=
  (p.reverse.takeWhile (fun c => c ≠ '/')).reverse

/-- Model of `Path::extension`: the part of the file name after the last dot,
none when there is no dot or the file name starts with its only dot. -/
def extensionOf (p : Str) : Option Str :=
  let name := fileNameOf p
  let extRev := name.reverse.takeWhile (fun c => c ≠ '.')
  if extRev.length = name.length then none
  else if (name.take (name.length - extRev.length - 1)).isEmpty then none
  else some extRev.reverse

/- ===================== FileWriteTool (tools/file_write.rs) ===================== -/

/-- Model of `FileWriteInput` (file_write.rs lines 19-25). -/
structure FileWriteInput where
  filePath : Str
  content : Str
deriving DecidableEq, Repr

/-- Model of `OperationType` (file_write.rs lines 36-41). -/
inductive OperationTypeL where
  | create
  | update
deriving DecidableEq, Repr

/-- Model of `FileWriteOutput` (file_write.rs lines 27-34). -/
structure FileWriteOutput where
  operationType : OperationTypeL
  filePath : Str
  content : Str
  linesWritten : Nat
deriving DecidableEq, Repr

/-- Model of `FileWriteTool::validate_input` (file_write.rs lines 157-209);
the file's metadata is always readable in the model, so the
`fs::metadata`/`modified`/`duration_since` fallible chain always succeeds. -/
def validateWrite (input : FileWriteInput) (ctx : ToolContextL) (fs : Fs) : ValidationResultL :=
  if !isAbsolute input.filePath then
    ValidationResultL.error (str "file_path must be an absolute path, not relative")
  else
    match alGet fs input.filePath with
    | some fd =>
      match alGet ctx.readFileTimestamps input.filePath with
      | some readTimestamp =>
        if fd.mtime > readTimestamp then
          ValidationResultL.error
            (str "File has been modified since read, either by the user or by a linter. Read it again before attempting to write it.")
        else
          ValidationResultL.ok
      | none =>
        ValidationResultL.error
          (str "File has not been read yet. Read it first before writing to it.")
    | none => ValidationResultL.ok

/-- Caller-visible result of a `FileWriteTool::call`: the file system after
the write and the tool output.  The `ToolContext` is consumed by value
(`call(&self, input, mut ctx: ToolContext)`, tools/mod.rs lines 202-206) and
is not part of the return value, so the caller sees no context change. -/
structure WriteCallResult where
  fs : Fs
  output : FileWriteOutput

/-- Model of `FileWriteTool::call` (file_write.rs lines 233-309) on the
non-Windows branch (`cfg!(windows)` is false): `newMtime` is the modification
time the file system assigns to the written file.  The ledger insert at
file_write.rs lines 272-282 mutates the by-value `ctx` parameter, an owned
copy that is dropped when `call` returns (`_droppedLedger` below): the
caller's context is unchanged by the call. -/
def fileWriteCall (input : FileWriteInput) (ctx : ToolContextL) (fs : Fs)
    (newMtime : Nat) : WriteCallResult :=
  let oldContent := (alGet fs input.filePath).map FileData.content
  let lineEnding :=
    match oldContent with
    | some old => detectLineEnding old
    | none => str "\n"
  let normalized := normalizeLineEndings lineEnding input.content
  let fs1 : Fs := alInsert fs input.filePath { content := normalized, mtime := newMtime }
  let _droppedLedger := alInsert ctx.readFileTimestamps input.filePath newMtime
  let operationType :=
    match oldContent with
    | some _ => OperationTypeL.update
    | none => OperationTypeL.create
  { fs := fs1,
    output :=
      { operationType := operationType, filePath := input.filePath,
        content := normalized, linesWritten := (linesOf normalized).length } }

/- ===================== FileEditTool (tools/file_edit.rs) ===================== -/

/-- Model of `N_LINES_SNIPPET` (file_edit.rs line 16). -/
def N_LINES_SNIPPET : Nat := 4

/-- Model of `FileEditInput` (file_edit.rs lines 18-26). -/
structure FileEditInput where
  filePath : Str
  oldString : Str
  newString : Str
deriving DecidableEq, Repr

/-- Model of `FileEditOutput` (file_edit.rs lines 28-36). -/
structure FileEditOutput where
  filePath : Str
  oldString : Str
  newString : Str
  originalFile : Str
  snippet : Str
  startLine : Nat
deriving DecidableEq, Repr

/-- Model of `old_string.ends_with('\n')` (file_edit.rs line 111). -/
def endsWithNl (s : Str) : Bool := s.getLast? = some '\n'

/-- Model of `FileEditTool::apply_edit` (file_edit.rs lines 93-126). -/
def applyEdit (original oldString newString : Str) : Except Str Str :=
  if oldString.isEmpty then Except.ok newString
  else if !containsSeq original oldString then
    Except.error (str "String to replace not found in file.")
  else
    let updated :=
      if newString.isEmpty then
        if !endsWithNl oldString && containsSeq original (oldString ++ str "\n") then
          replaceFirst original (oldString ++ str "\n") newString
        else replaceFirst original oldString newString
      else replaceFirst original oldString newString
    if updated = original then
      Except.error (str "Original and edited file match exactly. Failed to apply edit.")
    else Except.ok updated

/-- First window index whose joined lines contain the search string, the model
of the `for (i, window) in original_lines.windows(..)` loop with `break`
(file_edit.rs lines 143-149); defaults to 0 like the initial `start_line`. -/
def findWindowStart (lines : List Str) (oldString : Str) (wlen : Nat) : Nat :=
  (((List.range (lines.length + 1 - wlen)).filter
      (fun i => containsSeq (joinNl ((lines.drop i).take wlen)) oldString)).head?).getD 0

/-- Model of `FileEditTool::get_snippet` (file_edit.rs lines 129-177). -/
def getSnippet (original oldString newString : Str) : Str × Nat :=
  if oldString.isEmpty then
    (joinNl ((linesOf newString).take (N_LINES_SNIPPET * 2)), 1)
  else
    let originalLines := linesOf original
    let oldLines := linesOf oldString
    let startLine := findWindowStart originalLines oldString oldLines.length
    let contextStart := startLine - N_LINES_SNIPPET
    let contextEnd := min (startLine + oldLines.length + N_LINES_SNIPPET) originalLines.length
    match applyEdit original oldString newString with
    | Except.ok updated =>
      (joinNl (((linesOf updated).drop contextStart).take (contextEnd - contextStart)),
       contextStart + 1)
    | Except.error _ =>
      (joinNl ((originalLines.drop contextStart).take (contextEnd - contextStart)),
       contextStart + 1)

/-- Model of `FileEditTool::validate_input` (file_edit.rs lines 256-353);
reading an existing file always succeeds in the model, so the final
`fs::read_to_string` error branch does not arise. -/
def validateEdit (input : FileEditInput) (ctx : ToolContextL) (fs : Fs) : ValidationResultL :=
  if input.oldString = input.newString then
    ValidationResultL.error
      (str "No changes to make: old_string and new_string are exactly the same.")
  else if !isAbsolute input.filePath then
    ValidationResultL.error (str "file_path must be an absolute path, not relative")
  else if input.oldString.isEmpty then
    if fsExists fs input.filePath then
      ValidationResultL.error (str "Cannot create new file - file already exists.")
    else ValidationResultL.ok
  else
    match alGet fs input.filePath with
    | none => ValidationResultL.error (str "File does not exist: " ++ input.filePath)
    | some fd =>
      if extensionOf input.filePath = some (str "ipynb") then
        ValidationResultL.error
          (str "File is a Jupyter Notebook. Use the NotebookEdit tool to edit this file.")
      else
        match alGet ctx.readFileTimestamps input.filePath with
        | some readTimestamp =>
          if fd.mtime > readTimestamp then
            ValidationResultL.error
              (str "File has been modified since read, either by the user or by a linter. Read it again before attempting to write it.")
          else
            if !containsSeq fd.content input.oldString then
              ValidationResultL.error (str "String to replace not found in file.")
            else
              if countOccur fd.content input.oldString > 1 then
                ValidationResultL.error
                  (str "Found " ++ natToStr (countOccur fd.content input.oldString)
                    ++ str " matches of the string to replace. For safety, this tool only supports replacing exactly one occurrence at a time. Add more lines of context to your edit and try again.")
              else ValidationResultL.ok
        | none =>
          ValidationResultL.error
            (str "File has not been read yet. Read it first before writing to it.")

/-- Model of `FileEditTool::call` (file_edit.rs lines 379-465) on the
non-Windows branch: reads the original content (empty for a new file),
applies the edit, and writes the normalized result with modification time
`newMtime`.  As in `fileWriteCall`, the ledger insert at file_edit.rs lines
423-433 mutates the by-value `ctx` parameter, which is dropped when `call`
returns (`_droppedLedger` below): the caller's context is unchanged. -/
def fileEditCall (input : FileEditInput) (ctx : ToolContextL) (fs : Fs)
    (newMtime : Nat) : Except Str (Fs × FileEditOutput) :=
  match (if input.oldString.isEmpty then Except.ok ([] : Str)
         else match alGet fs input.filePath with
              | some fd => Except.ok fd.content
              | none => Except.error (str "No such file or directory")) with
  | Except.error e => Except.error e
  | Except.ok originalFile =>
    match applyEdit originalFile input.oldString input.newString with
    | Except.error e => Except.error e
    | Except.ok updatedFile =>
      let lineEnding :=
        if !originalFile.isEmpty then detectLineEnding originalFile else str "\n"
      let normalized := normalizeLineEndings lineEnding updatedFile
      let fs1 : Fs := alInsert fs input.filePath { content := normalized, mtime := newMtime }
      let _droppedLedger := alInsert ctx.readFileTimestamps input.filePath newMtime
      let snip := getSnippet originalFile input.oldString input.newString
      Except.ok (fs1,
        { filePath := input.filePath, oldString := input.oldString,
          newString := input.newString, originalFile := originalFile,
          snippet := snip.1, startLine := snip.2 })

/- ---- association list and string lemmas ---- -/

theorem alGet_alInsert_self {κ α : Type} [DecidableEq κ] (m : List (κ × α)) (k : κ) (v : α) :
    alGet (alInsert m k v) k = some v := by
  induction m with
  | nil => simp [alInsert, alGet]
  | cons kv rest ih =>
    obtain ⟨k1, v1⟩ := kv
    by_cases h : k1 = k
    · simp [alInsert, h, alGet]
    · simp [alInsert, h, alGet, ih]

theorem containsAux_false_countAuxF (fuel : Nat) (s pat : Str)
    (h : containsAux s pat = false) : countAuxF fuel s pat = 0 := by
  induction fuel generalizing s with
  | zero => rfl
  | succ f ih =>
    cases s with
    | nil => rfl
    | cons c cs =>
      rw [containsAux] at h
      rcases Bool.or_eq_false_iff.mp h with ⟨hp, hcs⟩
      rw [countAuxF]
      rw [if_neg (by simp [hp])]
      exact ih cs hcs

theorem containsAux_true_countAuxF_pos (fuel : Nat) (s pat : Str)
    (hf : s.length ≤ fuel) (h : containsAux s pat = true) :
    0 < countAuxF fuel s pat := by
  induction fuel generalizing s with
  | zero =>
    cases s with
    | nil => simp [containsAux] at h
    | cons c cs => simp at hf
  | succ f ih =>
    cases s with
    | nil => simp [containsAux] at h
    | cons c cs =>
      rw [containsAux] at h
      cases hp : pat.isPrefixOf (c :: cs) with
      | true => rw [countAuxF, if_pos hp]; omega
      | false =>
        rw [countAuxF, if_neg (by simp [hp])]
        exact ih cs (by simp at hf; omega) (by simpa [hp] using h)

theorem containsAux_replFirst_decomp (s pat rep : Str) (h : containsAux s pat = true) :
    ∃ a b, s = a ++ pat ++ b ∧ replFirstAux s pat rep = a ++ rep ++ b := by
  induction s with
  | nil => simp [containsAux] at h
  | cons c cs ih =>
    cases hp : pat.isPrefixOf (c :: cs) with
    | true =>
      obtain ⟨t, ht⟩ := List.isPrefixOf_iff_prefix.mp hp
      refine ⟨[], t, by simp [← ht], ?_⟩
      rw [replFirstAux, if_pos hp, ← ht, List.drop_left]
      simp
    | false =>
      rw [containsAux, hp, Bool.false_or] at h
      obtain ⟨a, b, hs, hr⟩ := ih h
      refine ⟨c :: a, b, by simp [hs], ?_⟩
      rw [replFirstAux, if_neg (by simp [hp]), hr]
      simp

theorem append_middle_cancel {a b rep pat : Str}
    (h : a ++ rep ++ b = a ++ pat ++ b) : rep = pat := by
  rw [List.append_assoc, List.append_assoc] at h
  exact List.append_cancel_right (List.append_cancel_left h)

/- ---- validation equations (helpers shared by several claims) ---- -/

/-- Helper: on an existing absolute target, `FileWriteTool::validate_input`
is determined by the read-timestamp ledger and the file's mtime. -/
theorem validateWrite_ledger_eq (input : FileWriteInput) (ctx : ToolContextL)
    (fs : Fs) (fd : FileData)
    (habs : isAbsolute input.filePath = true)
    (hget : alGet fs input.filePath = some fd) :
    validateWrite input ctx fs =
      match alGet ctx.readFileTimestamps input.filePath with
      | none =>
        ValidationResultL.error
          (str "File has not been read yet. Read it first before writing to it.")
      | some ts =>
        if fd.mtime > ts then
          ValidationResultL.error
            (str "File has been modified since read, either by the user or by a linter. Read it again before attempting to write it.")
        else ValidationResultL.ok := by
  rw [validateWrite, habs]
  simp only [Bool.not_true, Bool.false_eq_true, if_false]
  split
  · next fd2 hg =>
    rw [hget] at hg
    have hfd := Option.some.inj hg
    subst hfd
    cases hl : alGet ctx.readFileTimestamps input.filePath with
    | none => simp
    | some ts => by_cases hmt : fd.mtime > ts <;> simp [hmt]
  · next hg =>
    rw [hget] at hg
    exact Option.noConfusion hg

/-- Helper: on an existing absolute non-notebook target with a non-empty,
unique, changed search string, `FileEditTool::validate_input` is determined by
the read-timestamp ledger and the file's mtime. -/
theorem validateEdit_ledger_eq (input : FileEditInput) (ctx : ToolContextL)
    (fs : Fs) (fd : FileData)
    (hne : input.oldString ≠ input.newString)
    (habs : isAbsolute input.filePath = true)
    (hne0 : input.oldString ≠ [])
    (hget : alGet fs input.filePath = some fd)
    (hext : extensionOf input.filePath ≠ some (str "ipynb"))
    (hcont : containsSeq fd.content input.oldString = true)
    (hle : countOccur fd.content input.oldString ≤ 1) :
    validateEdit input ctx fs =
      match alGet ctx.readFileTimestamps input.filePath with
      | none =>
        ValidationResultL.error
          (str "File has not been read yet. Read it first before writing to it.")
      | some ts =>
        if fd.mtime > ts then
          ValidationResultL.error
            (str "File has been modified since read, either by the user or by a linter. Read it again before attempting to write it.")
        else ValidationResultL.ok := by
  have hoe : input.oldString.isEmpty = false := by
    cases h : input.oldString with
    | nil => exact absurd h hne0
    | cons a l => simp [h]
  have hngt : ¬ countOccur fd.content input.oldString > 1 := by omega
  rw [validateEdit, if_neg hne, habs, hoe]
  simp only [Bool.not_true, Bool.false_eq_true, if_false]
  split
  · next hg =>
    rw [hget] at hg
    exact Option.noConfusion hg
  · next fd2 hg =>
    rw [hget] at hg
    have hfd := Option.some.inj hg
    subst hfd
    rw [if_neg hext]
    cases hl : alGet ctx.readFileTimestamps input.filePath with
    | none => simp
    | some ts =>
      by_cases hmt : fd.mtime > ts
      · simp [hmt]
      · simp [hmt, hcont, hngt]

/-- Claim C1: for every FileWriteTool or FileEditTool invocation whose target
file exists (and, for edit, whose `old_string` is non-empty), with the other
per-tool checks passing, `validate_input` returns an invalid "not read yet"
result when the target path has no ledger entry, an invalid "modified since
read" result when the file's mtime is strictly newer than the ledger entry,
and otherwise a valid result. -/
theorem c1_read_before_write :
    (∀ (input : FileWriteInput) (ctx : ToolContextL) (fs : Fs) (fd : FileData),
      isAbsolute input.filePath = true →
      alGet fs input.filePath = some fd →
      validateWrite input ctx fs =
        match alGet ctx.readFileTimestamps input.filePath with
        | none =>
          ValidationResultL.error
            (str "File has not been read yet. Read it first before writing to it.")
        | some ts =>
          if fd.mtime > ts then
            ValidationResultL.error
              (str "File has been modified since read, either by the user or by a linter. Read it again before attempting to write it.")
          else ValidationResultL.ok)
    ∧
    (∀ (input : FileEditInput) (ctx : ToolContextL) (fs : Fs) (fd : FileData),
      input.oldString ≠ input.newString →
      isAbsolute input.filePath = true →
      input.oldString ≠ [] →
      alGet fs input.filePath = some fd →
      extensionOf input.filePath ≠ some (str "ipynb") →
      containsSeq fd.content input.oldString = true →
      countOccur fd.content input.oldString ≤ 1 →
      validateEdit input ctx fs =
        match alGet ctx.readFileTimestamps input.filePath with
        | none =>
          ValidationResultL.error
            (str "File has not been read yet. Read it first before writing to it.")
        | some ts =>
          if fd.mtime > ts then
            ValidationResultL.error
              (str "File has been modified since read, either by the user or by a linter. Read it again before attempting to write it.")
          else ValidationResultL.ok) :=
  ⟨fun input ctx fs fd habs hget => validateWrite_ledger_eq input ctx fs fd habs hget,
   fun input ctx fs fd hne habs hne0 hget hext hcont hle =>
     validateEdit_ledger_eq input ctx fs fd hne habs hne0 hget hext hcont hle⟩

/-- Witness for claim C1: a previously-unread existing file is rejected for
writing with the "not read yet" message; an edit of a read, unmodified file
with a unique search string validates. -/
theorem c1_read_before_write_witness :
    validateWrite { filePath := str "/a.txt", content := str "x" }
        { messageId := none, agentId := none, safeMode := false,
          readFileTimestamps := [], verbose := false }
        [(str "/a.txt", { content := str "hi", mtime := 100 })]
      = ValidationResultL.error
          (str "File has not been read yet. Read it first before writing to it.")
    ∧ validateEdit { filePath := str "/a.txt", oldString := str "h", newString := str "H" }
        { messageId := none, agentId := none, safeMode := false,
          readFileTimestamps := [(str "/a.txt", 100)], verbose := false }
        [(str "/a.txt", { content := str "hi", mtime := 100 })]
      = ValidationResultL.ok :=
  ⟨c1_read_before_write.1 _ _ _ { content := str "hi", mtime := 100 } (by decide) (by decide),
   c1_read_before_write.2 _ _ _ { content := str "hi", mtime := 100 }
     (by decide) (by decide) (by decide) (by decide) (by decide) (by decide) (by decide)⟩

/-- Helper: after inserting path `p` with mtime `tm` into both the file
system and the ledger, a write targeting `p` passes validation. -/
theorem validateWrite_ok_after_insert (input2 : FileWriteInput) (ctx : ToolContextL)
    (fs : Fs) (p : Str) (c : Str) (tm : Nat)
    (hpath : input2.filePath = p)
    (habs : isAbsolute p = true) :
    validateWrite input2
      { ctx with readFileTimestamps := alInsert ctx.readFileTimestamps p tm }
      (alInsert fs p { content := c, mtime := tm }) = ValidationResultL.ok := by
  have heq := validateWrite_ledger_eq input2
    { ctx with readFileTimestamps := alInsert ctx.readFileTimestamps p tm }
    (alInsert fs p { content := c, mtime := tm }) { content := c, mtime := tm }
    (by rw [hpath]; exact habs)
    (by rw [hpath]; exact alGet_alInsert_self _ _ _)
  rw [heq, hpath, alGet_alInsert_self]
  simp

/-- Helper: looking up a freshly inserted file reports the inserted mtime. -/
theorem alGet_alInsert_mtime (fs : Fs) (p : Str) (c : Str) (tm : Nat) :
    (alGet (alInsert fs p { content := c, mtime := tm }) p).map FileData.mtime = some tm := by
  rw [alGet_alInsert_self]
  rfl

/-- Claim C2 (code bug): the claim — and the code's own comment "Update read
timestamp to invalidate stale writes" — say the context's ledger maps the
written path to the new mtime after a successful write/edit, enabling a
chained second write.  But `call` consumes the `ToolContext` by value and
returns only the stream, so the ledger insert updates a dropped copy: the
caller's ledger still holds the old timestamp, and a second write or edit of
the just-written file is rejected as "modified since read".  This theorem
evaluates the code at the failing input: `/a.txt` (read at time 100) is
written/edited with new mtime 200, and re-validating against the caller's
unchanged context rejects both a second write and a second edit. -/
theorem c2_ledger_dead_store :
    ((alGet (fileWriteCall { filePath := str "/a.txt", content := str "x" }
        { messageId := none, agentId := none, safeMode := false,
          readFileTimestamps := [(str "/a.txt", 100)], verbose := false }
        [(str "/a.txt", { content := str "hi", mtime := 100 })] 200).fs
        (str "/a.txt")).map FileData.mtime = some 200)
    ∧ validateWrite { filePath := str "/a.txt", content := str "y" }
        { messageId := none, agentId := none, safeMode := false,
          readFileTimestamps := [(str "/a.txt", 100)], verbose := false }
        (fileWriteCall { filePath := str "/a.txt", content := str "x" }
          { messageId := none, agentId := none, safeMode := false,
            readFileTimestamps := [(str "/a.txt", 100)], verbose := false }
          [(str "/a.txt", { content := str "hi", mtime := 100 })] 200).fs
      = ValidationResultL.error
          (str "File has been modified since read, either by the user or by a linter. Read it again before attempting to write it.")
    ∧ (fileEditCall { filePath := str "/a.txt", oldString := str "h", newString := str "H" }
        { messageId := none, agentId := none, safeMode := false,
          readFileTimestamps := [(str "/a.txt", 100)], verbose := false }
        [(str "/a.txt", { content := str "hi", mtime := 100 })] 200).map
        (fun r => validateEdit { filePath := str "/a.txt", oldString := str "H", newString := str "z" }
          { messageId := none, agentId := none, safeMode := false,
            readFileTimestamps := [(str "/a.txt", 100)], verbose := false }
          r.1)
      = Except.ok (ValidationResultL.error
          (str "File has been modified since read, either by the user or by a linter. Read it again before attempting to write it.")) :=
  ⟨rfl, rfl, rfl⟩

/- ---- Claim C7 ---- -/

/-- Helper: with every check before the content inspection passing, the edit
validator is determined by the occurrence structure of the search string. -/
theorem validateEdit_content_eq (input : FileEditInput) (ctx : ToolContextL)
    (fs : Fs) (fd : FileData) (ts : Nat)
    (hne : input.oldString ≠ input.newString)
    (habs : isAbsolute input.filePath = true)
    (hne0 : input.oldString ≠ [])
    (hget : alGet fs input.filePath = some fd)
    (hext : extensionOf input.filePath ≠ some (str "ipynb"))
    (hts : alGet ctx.readFileTimestamps input.filePath = some ts)
    (hmt : ¬ fd.mtime > ts) :
    validateEdit input ctx fs =
      (if !containsSeq fd.content input.oldString then
        ValidationResultL.error (str "String to replace not found in file.")
      else if countOccur fd.content input.oldString > 1 then
        ValidationResultL.error
          (str "Found " ++ natToStr (countOccur fd.content input.oldString)
            ++ str " matches of the string to replace. For safety, this tool only supports replacing exactly one occurrence at a time. Add more lines of context to your edit and try again.")
      else ValidationResultL.ok) := by
  have hoe : input.oldString.isEmpty = false := by
    cases h : input.oldString with
    | nil => exact absurd h hne0
    | cons a l => simp [h]
  rw [validateEdit, if_neg hne, habs, hoe]
  simp only [Bool.not_true, Bool.false_eq_true, if_false]
  split
  · next hg =>
    rw [hget] at hg
    exact Option.noConfusion hg
  · next fd2 hg =>
    rw [hget] at hg
    have hfd := Option.some.inj hg
    subst hfd
    rw [if_neg hext]
    split
    · next ts2 hl =>
      rw [hts] at hl
      have hts2 := Option.some.inj hl
      subst hts2
      rw [if_neg hmt]
    · next hl =>
      rw [hts] at hl
      exact Option.noConfusion hl

/-- Helper: with a non-empty search string occurring in the file and differing
from the replacement, `apply_edit` succeeds and its output differs from the
original content. -/
theorem applyEdit_ok_ne (original old new : Str)
    (hne0 : old ≠ []) (hne : old ≠ new)
    (hcont : containsSeq original old = true) :
    ∃ u, applyEdit original old new = Except.ok u ∧ u ≠ original := by
  have hoe : old.isEmpty = false := by
    cases h : old with
    | nil => exact absurd h hne0
    | cons a l => simp [h]
  have hca : containsAux original old = true := by
    simpa [containsSeq, hoe] using hcont
  have holen : 0 < old.length := List.length_pos.mpr hne0
  cases hni : new.isEmpty with
  | false =>
    have hrf : replaceFirst original old new = replFirstAux original old new := by
      rw [replaceFirst, if_neg (by simp [hoe])]
    obtain ⟨a, b, hs, hr⟩ := containsAux_replFirst_decomp original old new hca
    have hneq : replFirstAux original old new ≠ original := by
      intro hEq
      rw [hr] at hEq
      rw [hs] at hEq
      exact hne (append_middle_cancel hEq).symm
    refine ⟨replFirstAux original old new, ?_, hneq⟩
    rw [applyEdit]
    rw [if_neg (by simp [hoe])]
    rw [if_neg (by simp [hcont])]
    simp only [hni, Bool.false_eq_true, if_false, hrf]
    rw [if_neg hneq]
  | true =>
    have hn : new = [] := List.isEmpty_iff.mp hni
    cases hcond : (!endsWithNl old && containsSeq original (old ++ str "\n")) with
    | true =>
      have hc2 : containsSeq original (old ++ str "\n") = true := by
        cases h2 : containsSeq original (old ++ str "\n") with
        | true => rfl
        | false => rw [h2, Bool.and_false] at hcond; exact Bool.noConfusion hcond
      have hpe : (old ++ str "\n").isEmpty = false := by
        cases old with
        | nil => decide
        | cons a l => simp
      have hca2 : containsAux original (old ++ str "\n") = true := by
        simpa [containsSeq, hpe] using hc2
      obtain ⟨a, b, hs, hr⟩ := containsAux_replFirst_decomp original (old ++ str "\n") new hca2
      have hrf : replaceFirst original (old ++ str "\n") new
          = replFirstAux original (old ++ str "\n") new := by
        rw [replaceFirst, if_neg (by simp [hpe])]
      have h1 : (str "\n").length = 1 := rfl
      have hneq : replFirstAux original (old ++ str "\n") new ≠ original := by
        intro hEq
        rw [hr, hn] at hEq
        rw [hs] at hEq
        have hlen := congrArg List.length hEq
        simp only [List.length_append, List.length_nil, h1] at hlen
        omega
      refine ⟨replFirstAux original (old ++ str "\n") new, ?_, hneq⟩
      rw [applyEdit]
      rw [if_neg (by simp [hoe])]
      rw [if_neg (by simp [hcont])]
      simp only [hni, hcond, eq_self_iff_true, if_true, hrf]
      rw [if_neg hneq]
    | false =>
      obtain ⟨a, b, hs, hr⟩ := containsAux_replFirst_decomp original old new hca
      have hrf : replaceFirst original old new = replFirstAux original old new := by
        rw [replaceFirst, if_neg (by simp [hoe])]
      have hneq : replFirstAux original old new ≠ original := by
        intro hEq
        rw [hr, hn] at hEq
        rw [hs] at hEq
        have hlen := congrArg List.length hEq
        simp only [List.length_append, List.length_nil] at hlen
        omega
      refine ⟨replFirstAux original old new, ?_, hneq⟩
      rw [applyEdit]
      rw [if_neg (by simp [hoe])]
      rw [if_neg (by simp [hcont])]
      simp only [hni, hcond, Bool.false_eq_true, if_false, eq_self_iff_true, if_true, hrf]
      rw [if_neg hneq]

/-- Claim C7 counterexample: a search string with zero occurrences yields the
error "String to replace not found in file.", which does not report the match
count (the digit 0 does not occur in it), so "the validation error reporting
the match count" fails as stated for the zero-occurrence case. -/
theorem c7_counterexample :
    (validateEdit { filePath := str "/c.txt", oldString := str "x", newString := str "y" }
        { messageId := none, agentId := none, safeMode := false,
          readFileTimestamps := [(str "/c.txt", 5)], verbose := false }
        [(str "/c.txt", { content := str "hello", mtime := 5 })]).result = false
    ∧ (validateEdit { filePath := str "/c.txt", oldString := str "x", newString := str "y" }
        { messageId := none, agentId := none, safeMode := false,
          readFileTimestamps := [(str "/c.txt", 5)], verbose := false }
        [(str "/c.txt", { content := str "hello", mtime := 5 })]).message
      = some (str "String to replace not found in file.")
    ∧ countOccur (str "hello") (str "x") = 0
    ∧ containsSeq (str "String to replace not found in file.") (str "0") = false :=
  ⟨by decide, by decide, by decide, by decide⟩

/-- Claim C7 (amended): on an existing, read, unmodified, non-notebook file
with non-empty `old_string` different from `new_string`: zero occurrences of
the search string yield the fixed "String to replace not found in file."
error (which reports no count), more than one occurrence yields an error
reporting the match count, and exactly one occurrence validates, with the
edited content differing from the original (a no-op replacement is
rejected). -/
theorem c7_edit_match_count (input : FileEditInput) (ctx : ToolContextL)
    (fs : Fs) (fd : FileData) (ts : Nat)
    (hne : input.oldString ≠ input.newString)
    (habs : isAbsolute input.filePath = true)
    (hne0 : input.oldString ≠ [])
    (hget : alGet fs input.filePath = some fd)
    (hext : extensionOf input.filePath ≠ some (str "ipynb"))
    (hts : alGet ctx.readFileTimestamps input.filePath = some ts)
    (hmt : ¬ fd.mtime > ts) :
    (countOccur fd.content input.oldString = 0 →
      validateEdit input ctx fs =
        ValidationResultL.error (str "String to replace not found in file."))
    ∧ (1 < countOccur fd.content input.oldString →
      validateEdit input ctx fs =
        ValidationResultL.error
          (str "Found " ++ natToStr (countOccur fd.content input.oldString)
            ++ str " matches of the string to replace. For safety, this tool only supports replacing exactly one occurrence at a time. Add more lines of context to your edit and try again."))
    ∧ (countOccur fd.content input.oldString = 1 →
      validateEdit input ctx fs = ValidationResultL.ok
      ∧ ∃ u, applyEdit fd.content input.oldString input.newString = Except.ok u
          ∧ u ≠ fd.content) := by
  have hoe : input.oldString.isEmpty = false := by
    cases h : input.oldString with
    | nil => exact absurd h hne0
    | cons a l => simp [h]
  have hco : countOccur fd.content input.oldString
      = countAuxF fd.content.length fd.content input.oldString := by
    rw [countOccur, if_neg (by simp [hoe])]
  have heq := validateEdit_content_eq input ctx fs fd ts hne habs hne0 hget hext hts hmt
  refine ⟨?_, ?_, ?_⟩
  · intro h0
    have hcaf : containsAux fd.content input.oldString = false := by
      cases hca : containsAux fd.content input.oldString with
      | false => rfl
      | true =>
        have := containsAux_true_countAuxF_pos fd.content.length fd.content
          input.oldString (le_refl _) hca
        rw [hco] at h0
        omega
    have hcf : containsSeq fd.content input.oldString = false := by
      simp [containsSeq, hoe, hcaf]
    rw [heq, hcf]
    rfl
  · intro h2
    have hca : containsAux fd.content input.oldString = true := by
      cases hca : containsAux fd.content input.oldString with
      | true => rfl
      | false =>
        have := containsAux_false_countAuxF fd.content.length fd.content
          input.oldString hca
        rw [hco] at h2
        omega
    have hct : containsSeq fd.content input.oldString = true := by
      simp [containsSeq, hoe, hca]
    rw [heq, hct]
    simp only [Bool.not_true, Bool.false_eq_true, if_false]
    rw [if_pos h2]
  · intro h1
    have hca : containsAux fd.content input.oldString = true := by
      cases hca : containsAux fd.content input.oldString with
      | true => rfl
      | false =>
        have := containsAux_false_countAuxF fd.content.length fd.content
          input.oldString hca
        rw [hco] at h1
        omega
    have hct : containsSeq fd.content input.oldString = true := by
      simp [containsSeq, hoe, hca]
    constructor
    · rw [heq, hct]
      simp only [Bool.not_true, Bool.false_eq_true, if_false]
      rw [if_neg (by omega)]
    · exact applyEdit_ok_ne fd.content input.oldString input.newString hne0 hne hct

/-- Witness for claim C7: a duplicated search string reports "Found 2
matches"; a unique one validates and the edit changes the content. -/
theorem c7_edit_match_count_witness :
    validateEdit { filePath := str "/c.txt", oldString := str "l", newString := str "L" }
        { messageId := none, agentId := none, safeMode := false,
          readFileTimestamps := [(str "/c.txt", 5)], verbose := false }
        [(str "/c.txt", { content := str "hello", mtime := 5 })]
      = ValidationResultL.error
          (str "Found 2 matches of the string to replace. For safety, this tool only supports replacing exactly one occurrence at a time. Add more lines of context to your edit and try again.")
    ∧ validateEdit { filePath := str "/c.txt", oldString := str "e", newString := str "E" }
        { messageId := none, agentId := none, safeMode := false,
          readFileTimestamps := [(str "/c.txt", 5)], verbose := false }
        [(str "/c.txt", { content := str "hello", mtime := 5 })]
      = ValidationResultL.ok
    ∧ applyEdit (str "hello") (str "e") (str "E") = Except.ok (str "hEllo") :=
  ⟨(c7_edit_match_count _ _ _ { content := str "hello", mtime := 5 } 5
      (by decide) (by decide) (by decide) (by decide) (by decide) (by decide) (by decide)).2.1
      (by decide),
   ((c7_edit_match_count
      { filePath := str "/c.txt", oldString := str "e", newString := str "E" }
      { messageId := none, agentId := none, safeMode := false,
        readFileTimestamps := [(str "/c.txt", 5)], verbose := false }
      [(str "/c.txt", { content := str "hello", mtime := 5 })]
      { content := str "hello", mtime := 5 } 5
      (by decide) (by decide) (by decide) (by decide) (by decide) (by decide) (by decide)).2.2
      (by decide)).1,
   by rfl⟩

/- ===================== Anthropic stream handler (anthropic_stream.rs) ===================== -/

/-- Model of `MessageMetadata` (streaming/mod.rs lines 64-71). -/
structure MessageMetadataL where
  id : Str
  model : Str
  role : Str
  messageType : Str
  usage : UsageL
deriving DecidableEq, Repr

/-- Model of `ContentBlockStart` (streaming/mod.rs lines 75-86). -/
inductive ContentBlockStartL where
  | text (text : Str)
  | toolUse (id : Str) (name : Str)
  | thinking (thinking : Str)
deriving DecidableEq, Repr

/-- Model of `ContentDelta` (streaming/mod.rs lines 90-100). -/
inductive ContentDeltaL where
  | textDelta (text : Str)
  | inputJsonDelta (partialJson : Str)
  | thinkingDelta (thinking : Str)
deriving DecidableEq, Repr

/-- Model of `MessageDeltaData` (streaming/mod.rs lines 103-106). -/
structure MessageDeltaDataL where
  stopReason : Option Str
  stopSequence : Option Str
deriving DecidableEq, Repr

/-- Model of `UsageDelta` (streaming/mod.rs lines 109-111). -/
structure UsageDeltaL where
  outputTokens : Option Nat
deriving DecidableEq, Repr

/-- Model of `ErrorData` (streaming/mod.rs lines 114-118). -/
structure ErrorDataL where
  errorType : Str
  message : Str
deriving DecidableEq, Repr

/-- Model of `AnthropicStreamEvent` (streaming/mod.rs lines 19-59), the typed
events decoded from each SSE record's JSON `data` by serde. -/
inductive AnthropicStreamEventL where
  | messageStart (message : MessageMetadataL)
  | contentBlockStart (index : Nat) (contentBlock : ContentBlockStartL)
  | contentBlockDelta (index : Nat) (delta : ContentDeltaL)
  | contentBlockStop (index : Nat)
  | messageDelta (delta : MessageDeltaDataL) (usage : Option UsageDeltaL)
  | messageStop
  | ping
  | error (error : ErrorDataL)
deriving DecidableEq, Repr

/-- Model of the accumulator state of `AnthropicStreamHandler`
(anthropic_stream.rs lines 21-42); the SSE parser member is the upstream
layer already modelled by `SseParserS`, and the `HashMap<usize, String>`
JSON-buffer map is an association list. -/
structure AnthropicStreamHandlerS where
  messageMetadata : Option MessageMetadataL
  contentBlocks : List ContentBlockL
  inputJsonBuffers : List (Nat × Str)
  usage : UsageL
  stopReason : Option Str
  stopSequence : Option Str

/-- Model of `AnthropicStreamHandler::new` (anthropic_stream.rs lines 46-61). -/
def AnthropicStreamHandlerS.new : AnthropicStreamHandlerS :=
  { messageMetadata := none, contentBlocks := [], inputJsonBuffers := [],
    usage := { inputTokens := 0, outputTokens := 0,
               cacheCreationInputTokens := none, cacheReadInputTokens := none },
    stopReason := none, stopSequence := none }

/-- The `while self.content_blocks.len() <= index` placeholder-padding loop
(anthropic_stream.rs lines 144-148 and 174-178). -/
def padBlocks (bs : List ContentBlockL) (index : Nat) : List ContentBlockL :=
  bs ++ List.replicate (index + 1 - bs.length) (ContentBlockL.text [])

/-- Model of `handle_content_block_start` (anthropic_stream.rs lines 142-169). -/
def handleContentBlockStart (st : AnthropicStreamHandlerS) (index : Nat)
    (contentBlock : ContentBlockStartL) : AnthropicStreamHandlerS :=
  let blocks := padBlocks st.contentBlocks index
  match contentBlock with
  | .text t => { st with contentBlocks := blocks.set index (ContentBlockL.text t) }
  | .toolUse id name =>
    { st with
      contentBlocks := (blocks.set index (ContentBlockL.toolUse id name Json.emptyObj)),
      inputJsonBuffers := alInsert st.inputJsonBuffers index [] }
  | .thinking t => { st with contentBlocks := blocks.set index (ContentBlockL.thinking t) }

/-- Model of `handle_content_block_delta` (anthropic_stream.rs lines 172-212). -/
def handleContentBlockDelta (st : AnthropicStreamHandlerS) (index : Nat)
    (delta : ContentDeltaL) : AnthropicStreamHandlerS :=
  let blocks := padBlocks st.contentBlocks index
  match delta with
  | .textDelta t =>
    { st with contentBlocks :=
        match blocks.get? index with
        | some (ContentBlockL.text existing) => blocks.set index (ContentBlockL.text (existing ++ t))
        | _ => blocks.set index (ContentBlockL.text t) }
  | .inputJsonDelta pj =>
    { st with
      contentBlocks := (blocks),
      inputJsonBuffers :=
        match alGet st.inputJsonBuffers index with
        | some buf => alInsert st.inputJsonBuffers index (buf ++ pj)
        | none => alInsert st.inputJsonBuffers index pj }
  | .thinkingDelta t =>
    { st with contentBlocks :=
        match blocks.get? index with
        | some (ContentBlockL.thinking existing) =>
          blocks.set index (ContentBlockL.thinking (existing ++ t))
        | _ => blocks.set index (ContentBlockL.thinking t) }

/-- Model of `handle_content_block_stop` (anthropic_stream.rs lines 215-230);
`parseJson` models `serde_json::from_str` on the accumulated buffer.  A parse
failure is a terminal stream error.  (When a buffer exists but the indexed
block is out of range the Rust indexing would panic; that state is unreachable
because a buffer is only created together with its block.) -/
def handleContentBlockStop (parseJson : Str → Option Json)
    (st : AnthropicStreamHandlerS) (index : Nat) :
    Except Str AnthropicStreamHandlerS :=
  match alGet st.inputJsonBuffers index with
  | some jsonStr =>
    let buffers := alRemove st.inputJsonBuffers index
    match st.contentBlocks.get? index with
    | some (ContentBlockL.toolUse id name _) =>
      match parseJson jsonStr with
      | some v =>
        Except.ok { st with
          inputJsonBuffers := (buffers),
          contentBlocks := st.contentBlocks.set index (ContentBlockL.toolUse id name v) }
      | none => Except.error (str "Failed to parse tool input JSON")
    | _ => Except.ok { st with inputJsonBuffers := buffers }
  | none => Except.ok st

/-- Model of `process_event` (anthropic_stream.rs lines 81-139) on typed
events; returns the new state and whether the stream completed. -/
def processEventA (parseJson : Str → Option Json) (st : AnthropicStreamHandlerS)
    (ev : AnthropicStreamEventL) : Except Str (AnthropicStreamHandlerS × Bool) :=
  match ev with
  | .messageStart m => Except.ok ({ st with messageMetadata := some m, usage := m.usage }, false)
  | .contentBlockStart i cb => Except.ok (handleContentBlockStart st i cb, false)
  | .contentBlockDelta i d => Except.ok (handleContentBlockDelta st i d, false)
  | .contentBlockStop i =>
    match handleContentBlockStop parseJson st i with
    | Except.ok st1 => Except.ok (st1, false)
    | Except.error e => Except.error e
  | .messageDelta d u =>
    let st1 := { st with
      stopReason := (match d.stopReason with | some r => some r | none => st.stopReason),
      stopSequence := match d.stopSequence with | some sq => some sq | none => st.stopSequence }
    let st2 :=
      match u with
      | some ud =>
        match ud.outputTokens with
        | some ot => { st1 with usage := { st1.usage with outputTokens := ot } }
        | none => st1
      | none => st1
    Except.ok (st2, false)
  | .messageStop => Except.ok ({ st with inputJsonBuffers := [] }, true)
  | .ping => Except.ok (st, false)
  | .error e => Except.error (str "Stream error: " ++ e.errorType ++ str " - " ++ e.message)

/-- The `for event in events` loop of `process_chunk` (anthropic_stream.rs
lines 66-76): process typed events in order, stopping early when the stream
completes. -/
def processEventsA (parseJson : Str → Option Json) (st : AnthropicStreamHandlerS) :
    List AnthropicStreamEventL → Except Str (AnthropicStreamHandlerS × Bool)
  | [] => Except.ok (st, false)
  | ev :: evs =>
    match processEventA parseJson st ev with
    | Except.error e => Except.error e
    | Except.ok (st1, true) => Except.ok (st1, true)
    | Except.ok (st1, false) => processEventsA parseJson st1 evs

/-- Model of `AnthropicStreamHandler::get_message` (anthropic_stream.rs lines
235-253): fails when no metadata arrived; otherwise builds the assistant
message.  The two `uuid::Uuid::new_v4()` draws are explicit parameters
(`uMsg` for the inner message uuid, `uOuter` for the wrapper uuid), since the
generator returns a fresh random value on each call. -/
def anthGetMessage (st : AnthropicStreamHandlerS) (uMsg uOuter : Nat) :
    Except Str AssistantMessageL :=
  match st.messageMetadata with
  | none => Except.error (str "No message metadata received")
  | some _ =>
    Except.ok
      { message := { role := RoleL.assistant, content := st.contentBlocks, uuid := some uMsg },
        uuid := uOuter, costUsd := 0, durationMs := 0,
        isApiErrorMessage := none, responseId := none }

/- ===================== OpenAI stream handler (openai_stream.rs) ===================== -/

/-- Model of `ToolCallBuilder` (openai_stream.rs lines 20-24). -/
structure ToolCallBuilderL where
  id : Str
  name : Str
  arguments : Str
deriving DecidableEq, Repr

/-- Model of `FunctionDelta` (streaming/mod.rs lines 156-159). -/
structure FunctionDeltaL where
  name : Option Str
  arguments : Option Str
deriving DecidableEq, Repr

/-- Model of `ToolCallDelta` (streaming/mod.rs lines 148-153); the Rust field
`r#type` is called `rtype` here. -/
structure ToolCallDeltaL where
  index : Nat
  id : Option Str
  rtype : Option Str
  function : Option FunctionDeltaL
deriving DecidableEq, Repr

/-- Model of `OpenAIDelta` (streaming/mod.rs lines 139-145). -/
structure OpenAIDeltaL where
  role : Option Str
  content : Option Str
  toolCalls : Option (List ToolCallDeltaL)
  reasoning : Option Str
deriving DecidableEq, Repr

/-- Model of `OpenAIChoice` (streaming/mod.rs lines 131-136). -/
structure OpenAIChoiceL where
  index : Nat
  delta : OpenAIDeltaL
  finishReason : Option Str
deriving DecidableEq, Repr

/-- Model of `OpenAIStreamChunk` (streaming/mod.rs lines 121-128). -/
structure OpenAIStreamChunkL where
  id : Str
  object : Str
  created : Nat
  model : Str
  choices : List OpenAIChoiceL
  usage : Option UsageL
deriving DecidableEq, Repr

/-- Model of the accumulator state of `OpenAIStreamHandler`
(openai_stream.rs lines 27-54); the tool-call map is an association list. -/
structure OpenAIStreamHandlerS where
  id : Option Str
  model : Option Str
  created : Option Nat
  textContent : Str
  toolCalls : List (Nat × ToolCallBuilderL)
  thinkingContent : Option Str
  usage : Option UsageL
  finishReason : Option Str

/-- Model of `OpenAIStreamHandler::new` (openai_stream.rs lines 58-70). -/
def OpenAIStreamHandlerS.new : OpenAIStreamHandlerS :=
  { id := none, model := none, created := none, textContent := [],
    toolCalls := [], thinkingContent := none, usage := none, finishReason := none }

/-- Model of `process_tool_call_delta` (openai_stream.rs lines 142-171) on
the tool-call map. -/
def processToolCallDelta (tc : List (Nat × ToolCallBuilderL)) (delta : ToolCallDeltaL) :
    List (Nat × ToolCallBuilderL) :=
  let builder := (alGet tc delta.index).getD { id := [], name := [], arguments := [] }
  let builder :=
    match delta.id with
    | some i => { builder with id := i }
    | none => builder
  let builder :=
    match delta.function with
    | some f =>
      let b :=
        match f.name with
        | some n => { builder with name := n }
        | none => builder
      match f.arguments with
      | some a => { b with arguments := b.arguments ++ a }
      | none => b
    | none => builder
  alInsert tc delta.index builder

/-- Model of `process_event` (openai_stream.rs lines 90-139) on a typed,
already-JSON-decoded chunk; this function never fails. -/
def processEventO (st : OpenAIStreamHandlerS) (chunk : OpenAIStreamChunkL) :
    OpenAIStreamHandlerS :=
  let st := if st.id.isNone then { st with id := some chunk.id } else st
  let st := if st.model.isNone then { st with model := some chunk.model } else st
  let st := if st.created.isNone then { st with created := some chunk.created } else st
  let st := if chunk.usage.isSome then { st with usage := chunk.usage } else st
  match chunk.choices.head? with
  | none => st
  | some choice =>
    let st :=
      match choice.delta.content with
      | some c => { st with textContent := st.textContent ++ c }
      | none => st
    let st :=
      match choice.delta.reasoning with
      | some r => { st with thinkingContent := some ((st.thinkingContent.getD []) ++ r) }
      | none => st
    let st :=
      match choice.delta.toolCalls with
      | some ds => { st with toolCalls := ds.foldl processToolCallDelta st.toolCalls }
      | none => st
    match choice.finishReason with
    | some reason => { st with finishReason := some reason }
    | none => st

/-- The ascending sort of tool-call indices (`tool_indices.sort()`,
openai_stream.rs lines 194-195). -/
def sortNat (l : List Nat) : List Nat :=
  List.insertionSort (fun a b => a ≤ b) l

/-- The tool-call block construction loop of `get_message` (openai_stream.rs
lines 197-214): for each index in order, parse the accumulated argument text
once — an empty string defaults to the empty JSON object — and emit a
`ToolUse` block; a parse failure fails the whole call. -/
def buildToolBlocks (parseJson : Str → Option Json)
    (tc : List (Nat × ToolCallBuilderL)) : List Nat → Except Str (List ContentBlockL)
  | [] => Except.ok []
  | i :: is =>
    match alGet tc i with
    | none => buildToolBlocks parseJson tc is
    | some builder =>
      match (if builder.arguments.isEmpty then Except.ok Json.emptyObj
             else match parseJson builder.arguments with
                  | some v => Except.ok v
                  | none => Except.error (str "Failed to parse tool arguments")) with
      | Except.error e => Except.error e
      | Except.ok input =>
        match buildToolBlocks parseJson tc is with
        | Except.error e => Except.error e
        | Except.ok rest => Except.ok (ContentBlockL.toolUse builder.id builder.name input :: rest)

/-- Model of `OpenAIStreamHandler::get_message` (openai_stream.rs lines
176-238): text block (if any), then thinking block (if any), then tool-use
blocks in ascending index order; requires `id` and `model` to have arrived.
The fresh `Uuid::new_v4()` draws are the explicit `uMsg`/`uOuter` model
parameters. -/
def getMessageO (parseJson : Str → Option Json) (st : OpenAIStreamHandlerS)
    (uMsg uOuter : Nat) : Except Str AssistantMessageL :=
  let textBlocks : List ContentBlockL :=
    if !st.textContent.isEmpty then [ContentBlockL.text st.textContent] else []
  let thinkingBlocks : List ContentBlockL :=
    match st.thinkingContent with
    | some t => [ContentBlockL.thinking t]
    | none => []
  match buildToolBlocks parseJson st.toolCalls (sortNat (st.toolCalls.map Prod.fst)) with
  | Except.error e => Except.error e
  | Except.ok toolBlocks =>
    match st.id with
    | none => Except.error (str "No message ID received")
    | some _ =>
      match st.model with
      | none => Except.error (str "No model received")
      | some _ =>
        Except.ok
          { message := { role := RoleL.assistant,
                         content := (textBlocks ++ thinkingBlocks ++ toolBlocks),
                         uuid := some uMsg },
            uuid := uOuter, costUsd := 0, durationMs := 0,
            isApiErrorMessage := none, responseId := none }

/- ---- Claim C4 ---- -/

theorem list_get?_set_self {α : Type} (l : List α) (i : Nat) (a : α) (h : i < l.length) :
    (l.set i a).get? i = some a := by
  induction l generalizing i with
  | nil => simp at h
  | cons x xs ih =>
    cases i with
    | zero => rfl
    | succ n => simpa using ih n (by simpa using h)

theorem padBlocks_of_lt (bs : List ContentBlockL) (i : Nat) (h : i < bs.length) :
    padBlocks bs i = bs := by
  rw [padBlocks, Nat.sub_eq_zero_of_le h, List.replicate_zero, List.append_nil]

theorem padBlocks_length (bs : List ContentBlockL) (i : Nat) :
    i < (padBlocks bs i).length := by
  simp only [padBlocks, List.length_append, List.length_replicate]
  omega

theorem inputJsonDelta_fold (frags : List Str) (st : AnthropicStreamHandlerS) (i : Nat)
    (acc : Str)
    (hlen : i < st.contentBlocks.length)
    (hbuf : alGet st.inputJsonBuffers i = some acc) :
    (frags.foldl (fun s f => handleContentBlockDelta s i (ContentDeltaL.inputJsonDelta f))
        st).contentBlocks = st.contentBlocks
    ∧ alGet (frags.foldl (fun s f => handleContentBlockDelta s i (ContentDeltaL.inputJsonDelta f))
        st).inputJsonBuffers i = some (acc ++ frags.flatten) := by
  induction frags generalizing st acc with
  | nil => exact ⟨rfl, by simpa using hbuf⟩
  | cons f fs ih =>
    have hstep : handleContentBlockDelta st i (ContentDeltaL.inputJsonDelta f) =
        { st with
          contentBlocks := (padBlocks st.contentBlocks i),
          inputJsonBuffers := alInsert st.inputJsonBuffers i (acc ++ f) } := by
      rw [handleContentBlockDelta]
      rw [hbuf]
    have hpad : padBlocks st.contentBlocks i = st.contentBlocks := padBlocks_of_lt _ _ hlen
    have h1 : (handleContentBlockDelta st i (ContentDeltaL.inputJsonDelta f)).contentBlocks
        = st.contentBlocks := by rw [hstep, hpad]
    have h2 : alGet (handleContentBlockDelta st i
        (ContentDeltaL.inputJsonDelta f)).inputJsonBuffers i = some (acc ++ f) := by
      rw [hstep]
      exact alGet_alInsert_self _ _ _
    obtain ⟨ihb, ihg⟩ := ih (handleContentBlockDelta st i (ContentDeltaL.inputJsonDelta f))
      (acc ++ f) (by rw [h1]; exact hlen) h2
    refine ⟨?_, ?_⟩
    · rw [List.foldl_cons, ihb, h1]
    · rw [List.foldl_cons, ihg, List.flatten_cons, List.append_assoc]

theorem alGet_mem_keys {κ α : Type} [DecidableEq κ] (m : List (κ × α)) (k : κ) (v : α)
    (h : alGet m k = some v) : k ∈ m.map Prod.fst := by
  induction m with
  | nil => exact Option.noConfusion h
  | cons kv rest ih =>
    obtain ⟨k1, v1⟩ := kv
    by_cases hk : k1 = k
    · simp [hk]
    · rw [alGet, if_neg hk] at h
      simp [ih h]

theorem buildToolBlocks_mem (parseJson : Str → Option Json)
    (tc : List (Nat × ToolCallBuilderL)) (i : Nat) (b : ToolCallBuilderL)
    (idxs : List Nat) (blocks : List ContentBlockL)
    (hok : buildToolBlocks parseJson tc idxs = Except.ok blocks)
    (hmem : i ∈ idxs)
    (hget : alGet tc i = some b)
    (hempty : b.arguments = []) :
    ContentBlockL.toolUse b.id b.name Json.emptyObj ∈ blocks := by
  induction idxs generalizing blocks with
  | nil => simp at hmem
  | cons j is ih =>
    rw [buildToolBlocks] at hok
    split at hok
    · next hj =>
      rcases List.mem_cons.mp hmem with hij | his
      · subst hij
        rw [hget] at hj
        exact Option.noConfusion hj
      · exact ih blocks hok his
    · next builder hj =>
      split at hok
      · exact Except.noConfusion hok
      · next input hin =>
        split at hok
        · exact Except.noConfusion hok
        · next rest hrest =>
          injection hok with hb
          subst hb
          rcases List.mem_cons.mp hmem with hij | his
          · subst hij
            rw [hget] at hj
            have hb2 := Option.some.inj hj
            subst hb2
            rw [hempty] at hin
            simp only [List.isEmpty_nil, if_true] at hin
            have hinput := Except.ok.inj hin
            subst hinput
            exact List.mem_cons_self _ _
          · exact List.mem_cons_of_mem _ (ih rest hrest his)

/-- Claim C4: in dialect A, after `content_block_start(tool_use)` at index
`i`, `input_json_delta` fragments for `i` and `content_block_stop(i)`, the
resulting `ToolUse.input` equals the JSON decoding of the concatenated
fragments, and an invalid concatenation is a stream error, never a default
empty object; in dialect B, a tool-call record whose accumulated argument
text is empty at finalization gets the empty JSON object instead of failing. -/
theorem c4_tool_argument_parse_once :
    (∀ (parseJson : Str → Option Json) (st : AnthropicStreamHandlerS) (i : Nat)
        (id name : Str) (frags : List Str),
      (∀ v, parseJson frags.flatten = some v →
        ∃ st3, handleContentBlockStop parseJson
            (frags.foldl (fun s f => handleContentBlockDelta s i (ContentDeltaL.inputJsonDelta f))
              (handleContentBlockStart st i (ContentBlockStartL.toolUse id name))) i
          = Except.ok st3
        ∧ st3.contentBlocks.get? i = some (ContentBlockL.toolUse id name v))
      ∧ (parseJson frags.flatten = none →
        handleContentBlockStop parseJson
            (frags.foldl (fun s f => handleContentBlockDelta s i (ContentDeltaL.inputJsonDelta f))
              (handleContentBlockStart st i (ContentBlockStartL.toolUse id name))) i
          = Except.error (str "Failed to parse tool input JSON")))
    ∧
    (∀ (parseJson : Str → Option Json) (st : OpenAIStreamHandlerS) (i : Nat)
        (b : ToolCallBuilderL) (uM uO : Nat) (m : AssistantMessageL),
      alGet st.toolCalls i = some b →
      b.arguments = [] →
      getMessageO parseJson st uM uO = Except.ok m →
      ContentBlockL.toolUse b.id b.name Json.emptyObj ∈ m.message.content) := by
  constructor
  · intro parseJson st i id name frags
    have hstart : handleContentBlockStart st i (ContentBlockStartL.toolUse id name) =
        { st with
          contentBlocks :=
            ((padBlocks st.contentBlocks i).set i (ContentBlockL.toolUse id name Json.emptyObj)),
          inputJsonBuffers := alInsert st.inputJsonBuffers i [] } := by
      rw [handleContentBlockStart]
    have hlen1 : i < (handleContentBlockStart st i
        (ContentBlockStartL.toolUse id name)).contentBlocks.length := by
      rw [hstart]
      simp only [List.length_set]
      exact padBlocks_length _ _
    have hbuf1 : alGet (handleContentBlockStart st i
        (ContentBlockStartL.toolUse id name)).inputJsonBuffers i = some [] := by
      rw [hstart]
      exact alGet_alInsert_self _ _ _
    obtain ⟨hblocks, hbuf2⟩ := inputJsonDelta_fold frags
      (handleContentBlockStart st i (ContentBlockStartL.toolUse id name)) i [] hlen1 hbuf1
    have hgeti : (frags.foldl
        (fun s f => handleContentBlockDelta s i (ContentDeltaL.inputJsonDelta f))
        (handleContentBlockStart st i (ContentBlockStartL.toolUse id name))).contentBlocks.get? i
        = some (ContentBlockL.toolUse id name Json.emptyObj) := by
      rw [hblocks, hstart]
      exact list_get?_set_self _ _ _ (padBlocks_length _ _)
    have hbuf3 : alGet (frags.foldl
        (fun s f => handleContentBlockDelta s i (ContentDeltaL.inputJsonDelta f))
        (handleContentBlockStart st i (ContentBlockStartL.toolUse id name))).inputJsonBuffers i
        = some frags.flatten := by
      rw [hbuf2]
      simp
    constructor
    · intro v hv
      have hstop : handleContentBlockStop parseJson
          (frags.foldl (fun s f => handleContentBlockDelta s i (ContentDeltaL.inputJsonDelta f))
            (handleContentBlockStart st i (ContentBlockStartL.toolUse id name))) i
          = Except.ok
            { (frags.foldl (fun s f => handleContentBlockDelta s i (ContentDeltaL.inputJsonDelta f))
                (handleContentBlockStart st i (ContentBlockStartL.toolUse id name))) with
              inputJsonBuffers :=
                (alRemove (frags.foldl
                  (fun s f => handleContentBlockDelta s i (ContentDeltaL.inputJsonDelta f))
                  (handleContentBlockStart st i (ContentBlockStartL.toolUse id name))).inputJsonBuffers i),
              contentBlocks :=
                (frags.foldl (fun s f => handleContentBlockDelta s i (ContentDeltaL.inputJsonDelta f))
                  (handleContentBlockStart st i (ContentBlockStartL.toolUse id name))).contentBlocks.set i
                    (ContentBlockL.toolUse id name v) } := by
        simp only [handleContentBlockStop, hbuf3, hgeti, hv]
      refine ⟨_, hstop, ?_⟩
      exact list_get?_set_self _ i _ (by rw [hblocks]; exact hlen1)
    · intro hv
      simp only [handleContentBlockStop, hbuf3, hgeti, hv]
  · intro parseJson st i b uM uO m hget hempty hm
    rw [getMessageO] at hm
    split at hm
    · exact Except.noConfusion hm
    · next toolBlocks htb =>
      split at hm
      · exact Except.noConfusion hm
      · split at hm
        · exact Except.noConfusion hm
        · injection hm with hm1
          subst hm1
          have hmemk : i ∈ sortNat (st.toolCalls.map Prod.fst) :=
            ((List.perm_insertionSort (fun a b => a ≤ b) (st.toolCalls.map Prod.fst)).mem_iff).mpr
              (alGet_mem_keys _ _ _ hget)
          have hmemb := buildToolBlocks_mem parseJson st.toolCalls i b _ toolBlocks htb hmemk hget hempty
          exact List.mem_append_right _ hmemb

/-- Witness for claim C4: fragments `"a"`, `"b"` whose concatenation decodes
to a value produce that value as the tool input (dialect A); an empty
argument text yields the empty object (dialect B). -/
theorem c4_tool_argument_parse_once_witness :
    (∃ st3, handleContentBlockStop
        (fun s => if s = str "ab" then some (Json.jnum 7) else none)
        ([str "a", str "b"].foldl
          (fun s f => handleContentBlockDelta s 0 (ContentDeltaL.inputJsonDelta f))
          (handleContentBlockStart AnthropicStreamHandlerS.new 0
            (ContentBlockStartL.toolUse (str "t1") (str "tool")))) 0
      = Except.ok st3
      ∧ st3.contentBlocks.get? 0
        = some (ContentBlockL.toolUse (str "t1") (str "tool") (Json.jnum 7)))
    ∧ ContentBlockL.toolUse (str "call1") (str "tool") Json.emptyObj ∈
        ({ message := { role := RoleL.assistant,
                        content := [ContentBlockL.toolUse (str "call1") (str "tool") Json.emptyObj],
                        uuid := some 0 },
           uuid := 0, costUsd := 0, durationMs := 0,
           isApiErrorMessage := none, responseId := none } : AssistantMessageL).message.content :=
  ⟨(c4_tool_argument_parse_once.1
      (fun s => if s = str "ab" then some (Json.jnum 7) else none)
      AnthropicStreamHandlerS.new 0 (str "t1") (str "tool") [str "a", str "b"]).1
      (Json.jnum 7) (by rfl),
   c4_tool_argument_parse_once.2
     (fun s => if s = str "ab" then some (Json.jnum 7) else none)
     { id := some (str "c1"), model := some (str "m"), created := some 1,
       textContent := [],
       toolCalls := [(0, { id := str "call1", name := str "tool", arguments := [] })],
       thinkingContent := none, usage := none, finishReason := none }
     0 { id := str "call1", name := str "tool", arguments := [] } 0 0 _
     (by rfl) (by rfl) (by rfl)⟩

/- ---- Claim C5 ---- -/

/-- Claim C5 counterexample: on a completed dialect-A stream, two successive
`get_message` calls draw fresh uuids (modelled by the distinct draws 0/10 and
1/11), and the returned `Message` values differ (in their `uuid` field), so
they are not equal as the claim states.  The same happens for dialect B. -/
theorem c5_counterexample :
    processEventsA (fun _ => none) AnthropicStreamHandlerS.new
        [AnthropicStreamEventL.messageStart
           { id := str "msg_1", model := str "m", role := str "assistant",
             messageType := str "message",
             usage := { inputTokens := 1, outputTokens := 0,
                        cacheCreationInputTokens := none, cacheReadInputTokens := none } },
         AnthropicStreamEventL.contentBlockStart 0 (ContentBlockStartL.text (str "Hello")),
         AnthropicStreamEventL.messageStop]
      = Except.ok
          ({ messageMetadata := some
               { id := str "msg_1", model := str "m", role := str "assistant",
                 messageType := str "message",
                 usage := { inputTokens := 1, outputTokens := 0,
                            cacheCreationInputTokens := none, cacheReadInputTokens := none } },
             contentBlocks := [ContentBlockL.text (str "Hello")],
             inputJsonBuffers := [],
             usage := { inputTokens := 1, outputTokens := 0,
                        cacheCreationInputTokens := none, cacheReadInputTokens := none },
             stopReason := none, stopSequence := none }, true)
    ∧ (anthGetMessage
        { messageMetadata := some
            { id := str "msg_1", model := str "m", role := str "assistant",
              messageType := str "message",
              usage := { inputTokens := 1, outputTokens := 0,
                         cacheCreationInputTokens := none, cacheReadInputTokens := none } },
          contentBlocks := [ContentBlockL.text (str "Hello")],
          inputJsonBuffers := [],
          usage := { inputTokens := 1, outputTokens := 0,
                     cacheCreationInputTokens := none, cacheReadInputTokens := none },
          stopReason := none, stopSequence := none } 0 10).map AssistantMessageL.message
      ≠ (anthGetMessage
        { messageMetadata := some
            { id := str "msg_1", model := str "m", role := str "assistant",
              messageType := str "message",
              usage := { inputTokens := 1, outputTokens := 0,
                         cacheCreationInputTokens := none, cacheReadInputTokens := none } },
          contentBlocks := [ContentBlockL.text (str "Hello")],
          inputJsonBuffers := [],
          usage := { inputTokens := 1, outputTokens := 0,
                     cacheCreationInputTokens := none, cacheReadInputTokens := none },
          stopReason := none, stopSequence := none } 1 11).map AssistantMessageL.message
    ∧ (getMessageO (fun _ => none)
        { id := some (str "c1"), model := some (str "m"), created := some 1,
          textContent := str "Hi", toolCalls := [], thinkingContent := none,
          usage := none, finishReason := none } 0 10).map AssistantMessageL.message
      ≠ (getMessageO (fun _ => none)
        { id := some (str "c1"), model := some (str "m"), created := some 1,
          textContent := str "Hi", toolCalls := [], thinkingContent := none,
          usage := none, finishReason := none } 1 11).map AssistantMessageL.message := by
  refine ⟨rfl, ?_, ?_⟩
  · intro h
    simp [anthGetMessage, Except.map] at h
  · intro h
    simp [getMessageO, sortNat, buildToolBlocks, List.insertionSort, Except.map] at h

/-- Claim C5 (amended): calling `get_message` twice after stream completion
returns messages with equal role and equal content; only the freshly drawn
uuid fields can differ between the two calls, in either dialect. -/
theorem c5_get_message_content_stable :
    (∀ (st : AnthropicStreamHandlerS) (u1 o1 u2 o2 : Nat) (m1 m2 : AssistantMessageL),
      anthGetMessage st u1 o1 = Except.ok m1 →
      anthGetMessage st u2 o2 = Except.ok m2 →
      m1.message.role = m2.message.role ∧ m1.message.content = m2.message.content)
    ∧ (∀ (parseJson : Str → Option Json) (st : OpenAIStreamHandlerS) (u1 o1 u2 o2 : Nat)
        (m1 m2 : AssistantMessageL),
      getMessageO parseJson st u1 o1 = Except.ok m1 →
      getMessageO parseJson st u2 o2 = Except.ok m2 →
      m1.message.role = m2.message.role ∧ m1.message.content = m2.message.content) := by
  constructor
  · intro st u1 o1 u2 o2 m1 m2 h1 h2
    cases hmd : st.messageMetadata with
    | none =>
      rw [anthGetMessage, hmd] at h1
      exact Except.noConfusion h1
    | some md =>
      rw [anthGetMessage, hmd] at h1 h2
      have e1 := Except.ok.inj h1
      have e2 := Except.ok.inj h2
      rw [← e1, ← e2]
      exact ⟨rfl, rfl⟩
  · intro parseJson st u1 o1 u2 o2 m1 m2 h1 h2
    cases htb : buildToolBlocks parseJson st.toolCalls (sortNat (st.toolCalls.map Prod.fst)) with
    | error e =>
      rw [getMessageO, htb] at h1
      exact Except.noConfusion h1
    | ok tb =>
      cases hid : st.id with
      | none =>
        rw [getMessageO, htb, hid] at h1
        exact Except.noConfusion h1
      | some idv =>
        cases hmodel : st.model with
        | none =>
          rw [getMessageO, htb, hid, hmodel] at h1
          exact Except.noConfusion h1
        | some mv =>
          rw [getMessageO, htb, hid, hmodel] at h1 h2
          have e1 := Except.ok.inj h1
          have e2 := Except.ok.inj h2
          rw [← e1, ← e2]
          exact ⟨rfl, rfl⟩

/-- Witness for claim C5 at a completed dialect-A stream state. -/
theorem c5_get_message_content_stable_witness :
    ({ message := { role := RoleL.assistant, content := [ContentBlockL.text (str "Hello")],
                    uuid := some 0 },
       uuid := 10, costUsd := 0, durationMs := 0,
       isApiErrorMessage := none, responseId := none } : AssistantMessageL).message.role
      = ({ message := { role := RoleL.assistant, content := [ContentBlockL.text (str "Hello")],
                        uuid := some 1 },
           uuid := 11, costUsd := 0, durationMs := 0,
           isApiErrorMessage := none, responseId := none } : AssistantMessageL).message.role
    ∧ ({ message := { role := RoleL.assistant, content := [ContentBlockL.text (str "Hello")],
                      uuid := some 0 },
         uuid := 10, costUsd := 0, durationMs := 0,
         isApiErrorMessage := none, responseId := none } : AssistantMessageL).message.content
      = ({ message := { role := RoleL.assistant, content := [ContentBlockL.text (str "Hello")],
                        uuid := some 1 },
           uuid := 11, costUsd := 0, durationMs := 0,
           isApiErrorMessage := none, responseId := none } : AssistantMessageL).message.content :=
  c5_get_message_content_stable.1
    { messageMetadata := some
        { id := str "msg_1", model := str "m", role := str "assistant",
          messageType := str "message",
          usage := { inputTokens := 1, outputTokens := 0,
                     cacheCreationInputTokens := none, cacheReadInputTokens := none } },
      contentBlocks := [ContentBlockL.text (str "Hello")],
      inputJsonBuffers := [],
      usage := { inputTokens := 1, outputTokens := 0,
                 cacheCreationInputTokens := none, cacheReadInputTokens := none },
      stopReason := none, stopSequence := none }
    0 10 1 11 _ _ (by rfl) (by rfl)

/- ---- Claim C6 ---- -/

/-- Claim C6 counterexample: in dialect B, a chunk carrying reasoning
(thinking) content arrives before a chunk carrying text content, yet
`get_message` returns the text block before the thinking block — arrival
order of content blocks is not preserved. -/
theorem c6_counterexample :
    (getMessageO (fun _ => none)
      (processEventO (processEventO OpenAIStreamHandlerS.new
        { id := str "c1", object := str "chat.completion.chunk", created := 1, model := str "m",
          choices := [{ index := 0,
                        delta := { role := none, content := none, toolCalls := none,
                                   reasoning := some (str "think") },
                        finishReason := none }],
          usage := none })
        { id := str "c1", object := str "chat.completion.chunk", created := 1, model := str "m",
          choices := [{ index := 0,
                        delta := { role := none, content := some (str "hello"), toolCalls := none,
                                   reasoning := none },
                        finishReason := none }],
          usage := none }) 0 0).map (fun m => m.message.content)
    = Except.ok [ContentBlockL.text (str "hello"), ContentBlockL.thinking (str "think")] := by
  rfl

/-- Observation: the kind of a content block (text / tool-use with its
identity / thinking / tool-result), used to state order preservation. -/
inductive BlockKind where
  | kText
  | kToolUse (id name : Str)
  | kThinking
  | kToolResult
deriving DecidableEq, Repr

/-- The kind of an assembled content block. -/
def blockKind : ContentBlockL → BlockKind
  | ContentBlockL.text _ => BlockKind.kText
  | ContentBlockL.toolUse id name _ => BlockKind.kToolUse id name
  | ContentBlockL.toolResult _ _ _ => BlockKind.kToolResult
  | ContentBlockL.thinking _ => BlockKind.kThinking

/-- The kind a `content_block_start` event announces. -/
def kindOfStart : ContentBlockStartL → BlockKind
  | ContentBlockStartL.text _ => BlockKind.kText
  | ContentBlockStartL.toolUse id name => BlockKind.kToolUse id name
  | ContentBlockStartL.thinking _ => BlockKind.kThinking

/-- Whether a delta is addressed to a block of the matching kind (the shape
of well-formed provider streams). -/
def deltaMatchesKind : ContentDeltaL → BlockKind → Bool
  | ContentDeltaL.textDelta _, BlockKind.kText => true
  | ContentDeltaL.inputJsonDelta _, BlockKind.kToolUse _ _ => true
  | ContentDeltaL.thinkingDelta _, BlockKind.kThinking => true
  | _, _ => false

/-- Well-formedness of a dialect-A event prefix (before `message_stop`):
block starts arrive at consecutive indices, every delta and stop addresses an
already-started block, and deltas are type-consistent; returns the kinds of
the started blocks in arrival order. -/
def wfFoldA : List AnthropicStreamEventL → List BlockKind → Option (List BlockKind)
  | [], ks => some ks
  | ev :: evs, ks =>
    match ev with
    | AnthropicStreamEventL.messageStart _ => wfFoldA evs ks
    | AnthropicStreamEventL.ping => wfFoldA evs ks
    | AnthropicStreamEventL.messageDelta _ _ => wfFoldA evs ks
    | AnthropicStreamEventL.contentBlockStart i cb =>
      if i = ks.length then wfFoldA evs (ks ++ [kindOfStart cb]) else none
    | AnthropicStreamEventL.contentBlockDelta i d =>
      match ks.get? i with
      | some k => if deltaMatchesKind d k then wfFoldA evs ks else none
      | none => none
    | AnthropicStreamEventL.contentBlockStop i =>
      if i < ks.length then wfFoldA evs ks else none
    | AnthropicStreamEventL.messageStop => none
    | AnthropicStreamEventL.error _ => none

/-- Rank of a block kind in dialect B finalization order: text, thinking,
tool use. -/
def blockRank : ContentBlockL → Nat
  | ContentBlockL.text _ => 0
  | ContentBlockL.thinking _ => 1
  | ContentBlockL.toolUse _ _ _ => 2
  | ContentBlockL.toolResult _ _ _ => 3

theorem list_map_set {α β : Type} (l : List α) (i : Nat) (a : α) (f : α → β) :
    (l.set i a).map f = (l.map f).set i (f a) := by
  induction l generalizing i with
  | nil => rfl
  | cons x xs ih =>
    cases i with
    | zero => rfl
    | succ n => simp [List.set, ih]

theorem list_set_of_get? {α : Type} (l : List α) (i : Nat) (a : α)
    (h : l.get? i = some a) : l.set i a = l := by
  induction l generalizing i with
  | nil => exact Option.noConfusion h
  | cons x xs ih =>
    cases i with
    | zero =>
      have := Option.some.inj h
      rw [← this]
      rfl
    | succ n =>
      have := ih n (by simpa using h)
      simp [List.set, this]

theorem set_append_len {α : Type} (bs : List α) (x b : α) :
    (bs ++ [x]).set bs.length b = bs ++ [b] := by
  induction bs with
  | nil => rfl
  | cons c cs ih => simp [List.set, ih]

theorem handleStart_kinds (st : AnthropicStreamHandlerS) (i : Nat) (cb : ContentBlockStartL)
    (h : i = (st.contentBlocks.map blockKind).length) :
    (handleContentBlockStart st i cb).contentBlocks.map blockKind
      = st.contentBlocks.map blockKind ++ [kindOfStart cb] := by
  have hlen : i = st.contentBlocks.length := by simpa using h
  have hpad : padBlocks st.contentBlocks i = st.contentBlocks ++ [ContentBlockL.text []] := by
    rw [padBlocks, hlen, Nat.add_sub_cancel_left]
    rfl
  cases cb with
  | text t =>
    simp only [handleContentBlockStart]
    rw [hpad, hlen, set_append_len, List.map_append]
    rfl
  | toolUse id name =>
    simp only [handleContentBlockStart]
    rw [hpad, hlen, set_append_len, List.map_append]
    rfl
  | thinking t =>
    simp only [handleContentBlockStart]
    rw [hpad, hlen, set_append_len, List.map_append]
    rfl

theorem handleDelta_kinds (st : AnthropicStreamHandlerS) (i : Nat) (d : ContentDeltaL)
    (k : BlockKind)
    (hk : (st.contentBlocks.map blockKind).get? i = some k)
    (hm : deltaMatchesKind d k = true) :
    (handleContentBlockDelta st i d).contentBlocks.map blockKind
      = st.contentBlocks.map blockKind := by
  have hlen : i < st.contentBlocks.length := by
    by_contra hge
    rw [List.get?_eq_none.mpr (by simpa using Nat.le_of_not_lt hge)] at hk
    exact Option.noConfusion hk
  have hpad : padBlocks st.contentBlocks i = st.contentBlocks := padBlocks_of_lt _ _ hlen
  rw [List.get?_map] at hk
  cases d with
  | textDelta t =>
    cases k with
    | kText =>
      obtain ⟨b, hb, hbk⟩ := Option.map_eq_some'.mp hk
      cases b with
      | text t0 =>
        simp only [handleContentBlockDelta]
        rw [hpad, hb]
        rw [list_map_set]
        exact list_set_of_get? _ _ _ (by rw [List.get?_map, hb]; rfl)
      | toolUse id name input => simp [blockKind] at hbk
      | toolResult a c e => simp [blockKind] at hbk
      | thinking t0 => simp [blockKind] at hbk
    | kToolUse id name => simp [deltaMatchesKind] at hm
    | kThinking => simp [deltaMatchesKind] at hm
    | kToolResult => simp [deltaMatchesKind] at hm
  | inputJsonDelta pj =>
    simp only [handleContentBlockDelta]
    rw [hpad]
  | thinkingDelta t =>
    cases k with
    | kThinking =>
      obtain ⟨b, hb, hbk⟩ := Option.map_eq_some'.mp hk
      cases b with
      | thinking t0 =>
        simp only [handleContentBlockDelta]
        rw [hpad, hb]
        rw [list_map_set]
        exact list_set_of_get? _ _ _ (by rw [List.get?_map, hb]; rfl)
      | toolUse id name input => simp [blockKind] at hbk
      | toolResult a c e => simp [blockKind] at hbk
      | text t0 => simp [blockKind] at hbk
    | kText => simp [deltaMatchesKind] at hm
    | kToolUse id name => simp [deltaMatchesKind] at hm
    | kToolResult => simp [deltaMatchesKind] at hm

theorem handleStop_kinds (parseJson : Str → Option Json) (st : AnthropicStreamHandlerS)
    (i : Nat) (st1 : AnthropicStreamHandlerS)
    (h : handleContentBlockStop parseJson st i = Except.ok st1) :
    st1.contentBlocks.map blockKind = st.contentBlocks.map blockKind := by
  rw [handleContentBlockStop] at h
  split at h
  · next jsonStr hbuf =>
    split at h
    · next id name input hblk =>
      split at h
      · next v hv =>
        have h1 := Except.ok.inj h
        rw [← h1]
        show (st.contentBlocks.set i (ContentBlockL.toolUse id name v)).map blockKind = _
        rw [list_map_set]
        exact list_set_of_get? _ _ _ (by rw [List.get?_map, hblk]; rfl)
      · exact Except.noConfusion h
    · next hblk =>
      have h1 := Except.ok.inj h
      rw [← h1]
  · next hbuf =>
    have h1 := Except.ok.inj h
    rw [← h1]

theorem processEventsA_kinds (parseJson : Str → Option Json)
    (evs : List AnthropicStreamEventL) :
    ∀ (st st1 : AnthropicStreamHandlerS) (kinds : List BlockKind),
      wfFoldA evs (st.contentBlocks.map blockKind) = some kinds →
      processEventsA parseJson st evs = Except.ok (st1, false) →
      st1.contentBlocks.map blockKind = kinds := by
  induction evs with
  | nil =>
    intro st st1 kinds hwf hp
    have h1 := Except.ok.inj hp
    have h2 := Option.some.inj hwf
    rw [← (Prod.mk.injEq _ _ _ _).mp h1 |>.1, ← h2]
  | cons ev evs ih =>
    intro st st1 kinds hwf hp
    cases ev with
    | messageStart m =>
      simp only [processEventsA, processEventA] at hp
      simp only [wfFoldA] at hwf
      refine ih _ _ _ ?_ hp
      exact hwf
    | ping =>
      simp only [processEventsA, processEventA] at hp
      simp only [wfFoldA] at hwf
      refine ih _ _ _ ?_ hp
      exact hwf
    | messageDelta d u =>
      simp only [wfFoldA] at hwf
      cases u with
      | none =>
        simp only [processEventsA, processEventA] at hp
        refine ih _ _ _ ?_ hp
        exact hwf
      | some ud =>
        cases hot : ud.outputTokens with
        | none =>
          simp only [processEventsA, processEventA, hot] at hp
          refine ih _ _ _ ?_ hp
          exact hwf
        | some ot =>
          simp only [processEventsA, processEventA, hot] at hp
          refine ih _ _ _ ?_ hp
          exact hwf
    | contentBlockStart i cb =>
      simp only [wfFoldA] at hwf
      split at hwf
      · next hi =>
        simp only [processEventsA, processEventA] at hp
        refine ih _ _ _ ?_ hp
        rw [handleStart_kinds st i cb hi]
        exact hwf
      · exact Option.noConfusion hwf
    | contentBlockDelta i d =>
      simp only [wfFoldA] at hwf
      split at hwf
      · next k hk =>
        split at hwf
        · next hm =>
          simp only [processEventsA, processEventA] at hp
          refine ih _ _ _ ?_ hp
          rw [handleDelta_kinds st i d k hk hm]
          exact hwf
        · exact Option.noConfusion hwf
      · exact Option.noConfusion hwf
    | contentBlockStop i =>
      simp only [wfFoldA] at hwf
      split at hwf
      · next hi =>
        cases hstop : handleContentBlockStop parseJson st i with
        | error e =>
          simp only [processEventsA, processEventA, hstop] at hp
          exact Except.noConfusion hp
        | ok stx =>
          simp only [processEventsA, processEventA, hstop] at hp
          refine ih _ _ _ ?_ hp
          rw [handleStop_kinds parseJson st i stx hstop]
          exact hwf
      · exact Option.noConfusion hwf
    | messageStop => exact Option.noConfusion hwf
    | error e => exact Option.noConfusion hwf

theorem buildToolBlocks_ranks (parseJson : Str → Option Json)
    (tc : List (Nat × ToolCallBuilderL)) (idxs : List Nat) (blocks : List ContentBlockL)
    (h : buildToolBlocks parseJson tc idxs = Except.ok blocks) :
    ∀ b ∈ blocks, blockRank b = 2 := by
  induction idxs generalizing blocks with
  | nil =>
    have hb := Except.ok.inj h
    rw [← hb]
    intro b hbm
    simp at hbm
  | cons j is ih =>
    rw [buildToolBlocks] at h
    split at h
    · next hj => exact ih blocks h
    · next builder hj =>
      split at h
      · exact Except.noConfusion h
      · next input hin =>
        split at h
        · exact Except.noConfusion h
        · next rest hrest =>
          have hb := Except.ok.inj h
          rw [← hb]
          intro b hbm
          rcases List.mem_cons.mp hbm with hbb | hbb
          · rw [hbb]; rfl
          · exact ih rest hrest b hbb

theorem pairwise_le_of_const (l : List ContentBlockL) (v : Nat)
    (hv : ∀ b ∈ l, blockRank b = v) :
    (l.map blockRank).Pairwise (fun a b => a ≤ b) := by
  induction l with
  | nil => simp
  | cons x xs ih =>
    simp only [List.map_cons, List.pairwise_cons]
    constructor
    · intro r hr
      obtain ⟨b, hb, hbe⟩ := List.mem_map.mp hr
      rw [← hbe, hv x (List.mem_cons_self _ _), hv b (List.mem_cons_of_mem _ hb)]
    · exact ih (fun b hb => hv b (List.mem_cons_of_mem _ hb))

theorem sorted_ranks_concat (t h tl : List ContentBlockL)
    (ht : ∀ b ∈ t, blockRank b = 0) (hh : ∀ b ∈ h, blockRank b = 1)
    (htl : ∀ b ∈ tl, blockRank b = 2) :
    List.Sorted (fun a b => a ≤ b) ((t ++ h ++ tl).map blockRank) := by
  rw [List.map_append, List.map_append, List.Sorted]
  rw [List.pairwise_append, List.pairwise_append]
  refine ⟨⟨pairwise_le_of_const t 0 ht, pairwise_le_of_const h 1 hh, ?_⟩,
    pairwise_le_of_const tl 2 htl, ?_⟩
  · intro a ha b hb
    obtain ⟨ba, hba, hbae⟩ := List.mem_map.mp ha
    obtain ⟨bb, hbb, hbbe⟩ := List.mem_map.mp hb
    rw [← hbae, ← hbbe, ht ba hba, hh bb hbb]
    omega
  · intro a ha b hb
    obtain ⟨bb, hbb, hbbe⟩ := List.mem_map.mp hb
    rcases List.mem_append.mp ha with h1 | h1
    · obtain ⟨ba, hba, hbae⟩ := List.mem_map.mp h1
      rw [← hbae, ← hbbe, ht ba hba, htl bb hbb]
      omega
    · obtain ⟨ba, hba, hbae⟩ := List.mem_map.mp h1
      rw [← hbae, ← hbbe, hh ba hba, htl bb hbb]
      omega

theorem mem_keys_exists_alGet {κ α : Type} [DecidableEq κ] (m : List (κ × α)) (k : κ)
    (h : k ∈ m.map Prod.fst) : ∃ v, alGet m k = some v := by
  induction m with
  | nil => simp at h
  | cons kv rest ih =>
    obtain ⟨k1, v1⟩ := kv
    by_cases hk : k1 = k
    · exact ⟨v1, by rw [alGet, if_pos hk]⟩
    · have h2 : k ∈ rest.map Prod.fst := by
        rcases List.mem_cons.mp (show k ∈ k1 :: rest.map Prod.fst by simpa using h)
          with h1 | h1
        · exact absurd h1.symm hk
        · exact h1
      obtain ⟨v, hv⟩ := ih h2
      exact ⟨v, by rw [alGet, if_neg hk]; exact hv⟩

theorem buildToolBlocks_eq_map (parseJson : Str → Option Json)
    (tc : List (Nat × ToolCallBuilderL)) (idxs : List Nat) (blocks : List ContentBlockL)
    (hsome : ∀ i ∈ idxs, ∃ b, alGet tc i = some b)
    (h : buildToolBlocks parseJson tc idxs = Except.ok blocks) :
    blocks = idxs.map (fun i =>
      match alGet tc i with
      | some b =>
        ContentBlockL.toolUse b.id b.name
          (if b.arguments.isEmpty then Json.emptyObj
           else (parseJson b.arguments).getD Json.emptyObj)
      | none => ContentBlockL.text []) := by
  induction idxs generalizing blocks with
  | nil =>
    have hb := Except.ok.inj h
    rw [← hb]
    rfl
  | cons j is ih =>
    rw [buildToolBlocks] at h
    split at h
    · next hj =>
      obtain ⟨b, hb⟩ := hsome j (List.mem_cons_self _ _)
      rw [hb] at hj
      exact Option.noConfusion hj
    · next builder hj =>
      split at h
      · exact Except.noConfusion h
      · next input hin =>
        split at h
        · exact Except.noConfusion h
        · next rest hrest =>
          have hb := Except.ok.inj h
          have hInput : input = (if builder.arguments.isEmpty then Json.emptyObj
              else (parseJson builder.arguments).getD Json.emptyObj) := by
            cases hie : builder.arguments.isEmpty with
            | true =>
              simp only [hie, eq_self_iff_true, if_true] at hin ⊢
              exact (Except.ok.inj hin).symm
            | false =>
              cases hp : parseJson builder.arguments with
              | some v =>
                simp only [hie, Bool.false_eq_true, if_false, hp] at hin ⊢
                simp only [Option.getD]
                exact (Except.ok.inj hin).symm
              | none =>
                simp only [hie, Bool.false_eq_true, if_false, hp] at hin
                exact Except.noConfusion hin
          have hfj : (match alGet tc j with
              | some b =>
                ContentBlockL.toolUse b.id b.name
                  (if b.arguments.isEmpty then Json.emptyObj
                   else (parseJson b.arguments).getD Json.emptyObj)
              | none => ContentBlockL.text [])
              = ContentBlockL.toolUse builder.id builder.name input := by
            simp only [hj]
            exact (congrArg (ContentBlockL.toolUse builder.id builder.name) hInput).symm
          have hrest2 := ih rest (fun i hi => hsome i (List.mem_cons_of_mem _ hi)) hrest
          rw [← hb, List.map_cons, hfj, ← hrest2]

/-- Claim C6 (amended): in dialect A, a well-formed stream (consecutive
provider indices, type-consistent deltas) produces a message whose blocks
appear exactly in the arrival order of their `content_block_start` events;
in dialect B, `get_message` emits the text block first, then the thinking
block, then the tool-use blocks as exactly the ascending enumeration of the
provider indices (the sorted key list is strictly increasing under the
HashMap key-uniqueness invariant and enumerates precisely the keys, and the
message content ends with its per-index rendering), regardless of arrival
order. -/
theorem c6_block_order :
    (∀ (parseJson : Str → Option Json) (evs : List AnthropicStreamEventL)
        (st1 st2 : AnthropicStreamHandlerS) (kinds : List BlockKind) (u o : Nat)
        (m : AssistantMessageL),
      wfFoldA evs [] = some kinds →
      processEventsA parseJson AnthropicStreamHandlerS.new evs = Except.ok (st1, false) →
      processEventA parseJson st1 AnthropicStreamEventL.messageStop = Except.ok (st2, true) →
      anthGetMessage st2 u o = Except.ok m →
      m.message.content.map blockKind = kinds)
    ∧ (∀ (parseJson : Str → Option Json) (st : OpenAIStreamHandlerS) (u o : Nat)
        (m : AssistantMessageL),
      (st.toolCalls.map Prod.fst).Nodup →
      getMessageO parseJson st u o = Except.ok m →
      List.Sorted (fun a b => a ≤ b) (m.message.content.map blockRank)
      ∧ List.Sorted (fun a b => a < b) (sortNat (st.toolCalls.map Prod.fst))
      ∧ (∀ k, k ∈ sortNat (st.toolCalls.map Prod.fst) ↔ k ∈ st.toolCalls.map Prod.fst)
      ∧ m.message.content
          = (if !st.textContent.isEmpty then [ContentBlockL.text st.textContent] else [])
            ++ (match st.thinkingContent with
                | some t => [ContentBlockL.thinking t]
                | none => [])
            ++ (sortNat (st.toolCalls.map Prod.fst)).map (fun i =>
                 match alGet st.toolCalls i with
                 | some b =>
                   ContentBlockL.toolUse b.id b.name
                     (if b.arguments.isEmpty then Json.emptyObj
                      else (parseJson b.arguments).getD Json.emptyObj)
                 | none => ContentBlockL.text [])) := by
  constructor
  · intro parseJson evs st1 st2 kinds u o m hwf hp hstop hm
    have hk1 : st1.contentBlocks.map blockKind = kinds :=
      processEventsA_kinds parseJson evs AnthropicStreamHandlerS.new st1 kinds hwf hp
    have hst2 : st2 = { st1 with inputJsonBuffers := [] } := by
      have := Except.ok.inj hstop
      exact ((Prod.mk.injEq _ _ _ _).mp this).1.symm
    cases hmd : st2.messageMetadata with
    | none =>
      rw [anthGetMessage, hmd] at hm
      exact Except.noConfusion hm
    | some md =>
      rw [anthGetMessage, hmd] at hm
      have hme := Except.ok.inj hm
      rw [← hme]
      show st2.contentBlocks.map blockKind = kinds
      rw [hst2]
      exact hk1
  · intro parseJson st u o m hnd hm
    have hperm : (sortNat (st.toolCalls.map Prod.fst)).Perm (st.toolCalls.map Prod.fst) :=
      List.perm_insertionSort (fun a b => a ≤ b) (st.toolCalls.map Prod.fst)
    have hsortedLe : List.Sorted (fun a b => a ≤ b) (sortNat (st.toolCalls.map Prod.fst)) :=
      List.sorted_insertionSort (fun a b => a ≤ b) (st.toolCalls.map Prod.fst)
    have hndS : (sortNat (st.toolCalls.map Prod.fst)).Nodup := hperm.nodup_iff.mpr hnd
    have hsortedLt : List.Sorted (fun a b => a < b) (sortNat (st.toolCalls.map Prod.fst)) :=
      List.Pairwise.imp (fun hab => lt_of_le_of_ne hab.1 hab.2)
        (List.Pairwise.and hsortedLe hndS)
    cases htb : buildToolBlocks parseJson st.toolCalls (sortNat (st.toolCalls.map Prod.fst)) with
    | error e =>
      rw [getMessageO, htb] at hm
      exact Except.noConfusion hm
    | ok tb =>
      cases hid : st.id with
      | none =>
        rw [getMessageO, htb, hid] at hm
        exact Except.noConfusion hm
      | some idv =>
        cases hmodel : st.model with
        | none =>
          rw [getMessageO, htb, hid, hmodel] at hm
          exact Except.noConfusion hm
        | some mv =>
          rw [getMessageO, htb, hid, hmodel] at hm
          have hme := Except.ok.inj hm
          have htbmap := buildToolBlocks_eq_map parseJson st.toolCalls
            (sortNat (st.toolCalls.map Prod.fst)) tb
            (fun i hi => mem_keys_exists_alGet st.toolCalls i (hperm.mem_iff.mp hi)) htb
          refine ⟨?_, hsortedLt, fun k => hperm.mem_iff, ?_⟩
          · rw [← hme]
            show List.Sorted (fun a b => a ≤ b)
              (((if !st.textContent.isEmpty then [ContentBlockL.text st.textContent] else [])
                ++ (match st.thinkingContent with
                    | some t => [ContentBlockL.thinking t]
                    | none => [])
                ++ tb).map blockRank)
            refine sorted_ranks_concat _ _ _ ?_ ?_ ?_
            · intro b hb
              by_cases hte : st.textContent.isEmpty
              · rw [if_neg (by simp [hte])] at hb
                simp at hb
              · rw [if_pos (by simp [hte])] at hb
                rcases List.mem_cons.mp hb with h1 | h1
                · rw [h1]; rfl
                · simp at h1
            · intro b hb
              cases hth : st.thinkingContent with
              | none => rw [hth] at hb; simp at hb
              | some t =>
                rw [hth] at hb
                rcases List.mem_cons.mp hb with h1 | h1
                · rw [h1]; rfl
                · simp at h1
            · exact buildToolBlocks_ranks parseJson st.toolCalls _ tb htb
          · rw [← hme]
            show (if !st.textContent.isEmpty then [ContentBlockL.text st.textContent] else [])
                ++ (match st.thinkingContent with
                    | some t => [ContentBlockL.thinking t]
                    | none => [])
                ++ tb
              = (if !st.textContent.isEmpty then [ContentBlockL.text st.textContent] else [])
                ++ (match st.thinkingContent with
                    | some t => [ContentBlockL.thinking t]
                    | none => [])
                ++ (sortNat (st.toolCalls.map Prod.fst)).map (fun i =>
                     match alGet st.toolCalls i with
                     | some b =>
                       ContentBlockL.toolUse b.id b.name
                         (if b.arguments.isEmpty then Json.emptyObj
                          else (parseJson b.arguments).getD Json.emptyObj)
                     | none => ContentBlockL.text [])
            rw [htbmap]

/-- Witness for claim C6: a well-formed dialect-A stream with one text block
yields exactly that block; in dialect B a state whose tool calls arrived in
the order index 1 then index 0 yields the message text, thinking, then the
tool blocks for index 0 and index 1 in that ascending order. -/
theorem c6_block_order_witness :
    ({ message := { role := RoleL.assistant, content := [ContentBlockL.text (str "Hi!")],
                    uuid := some 0 },
       uuid := 0, costUsd := 0, durationMs := 0, isApiErrorMessage := none,
       responseId := none } : AssistantMessageL).message.content.map blockKind
      = [BlockKind.kText]
    ∧ List.Sorted (fun a b => a < b)
        (sortNat ([(1, ({ id := str "b", name := str "tb", arguments := [] }
                        : ToolCallBuilderL)),
                   (0, ({ id := str "a", name := str "ta", arguments := [] }
                        : ToolCallBuilderL))].map Prod.fst))
    ∧ ({ message := { role := RoleL.assistant,
                      content := [ContentBlockL.text (str "hello"),
                                  ContentBlockL.thinking (str "think"),
                                  ContentBlockL.toolUse (str "a") (str "ta") Json.emptyObj,
                                  ContentBlockL.toolUse (str "b") (str "tb") Json.emptyObj],
                      uuid := some 0 },
         uuid := 0, costUsd := 0, durationMs := 0, isApiErrorMessage := none,
         responseId := none } : AssistantMessageL).message.content
      = [ContentBlockL.text (str "hello"), ContentBlockL.thinking (str "think"),
         ContentBlockL.toolUse (str "a") (str "ta") Json.emptyObj,
         ContentBlockL.toolUse (str "b") (str "tb") Json.emptyObj] :=
  ⟨c6_block_order.1 (fun _ => none)
      [AnthropicStreamEventL.messageStart
         { id := str "msg_1", model := str "m", role := str "assistant",
           messageType := str "message",
           usage := { inputTokens := 1, outputTokens := 0,
                      cacheCreationInputTokens := none, cacheReadInputTokens := none } },
       AnthropicStreamEventL.contentBlockStart 0 (ContentBlockStartL.text (str "Hi")),
       AnthropicStreamEventL.contentBlockDelta 0 (ContentDeltaL.textDelta (str "!")),
       AnthropicStreamEventL.contentBlockStop 0]
      _ _ [BlockKind.kText] 0 0 _ (by rfl) (by rfl) (by rfl) (by rfl),
   (c6_block_order.2 (fun _ => none)
     { id := some (str "c1"), model := some (str "m"), created := some 1,
       textContent := str "hello",
       toolCalls := [(1, { id := str "b", name := str "tb", arguments := [] }),
                     (0, { id := str "a", name := str "ta", arguments := [] })],
       thinkingContent := some (str "think"), usage := none, finishReason := none }
     0 0
     { message := { role := RoleL.assistant,
                    content := [ContentBlockL.text (str "hello"),
                                ContentBlockL.thinking (str "think"),
                                ContentBlockL.toolUse (str "a") (str "ta") Json.emptyObj,
                                ContentBlockL.toolUse (str "b") (str "tb") Json.emptyObj],
                    uuid := some 0 },
       uuid := 0, costUsd := 0, durationMs := 0, isApiErrorMessage := none,
       responseId := none }
     (by decide) (by rfl)).2.1,
   (c6_block_order.2 (fun _ => none)
     { id := some (str "c1"), model := some (str "m"), created := some 1,
       textContent := str "hello",
       toolCalls := [(1, { id := str "b", name := str "tb", arguments := [] }),
                     (0, { id := str "a", name := str "ta", arguments := [] })],
       thinkingContent := some (str "think"), usage := none, finishReason := none }
     0 0
     { message := { role := RoleL.assistant,
                    content := [ContentBlockL.text (str "hello"),
                                ContentBlockL.thinking (str "think"),
                                ContentBlockL.toolUse (str "a") (str "ta") Json.emptyObj,
                                ContentBlockL.toolUse (str "b") (str "tb") Json.emptyObj],
                    uuid := some 0 },
       uuid := 0, costUsd := 0, durationMs := 0, isApiErrorMessage := none,
       responseId := none }
     (by decide) (by rfl)).2.2.2⟩
